import Mathlib

/-!
# Board identity of the i.MX RT port (`board_identity.c`)

A shallow embedding of
`src/platforms/nuttx/src/px4/nxp/imxrt/version/board_identity.c`.

* The two OCOTP fuse registers are a function `Reg → Nat`; `getreg32`
  reduces what it reads to 32 bits.
* A caller-provided byte buffer is a function `Nat → Option Nat`: `some v`
  at index `i` when byte `v` is held there, `none` when nothing is known to
  have been stored there.  A pointer into a buffer is the buffer together
  with a base index.
* `int` is `Int` (theorems carry the range of the type), `unsigned` and
  `size_t` are `Nat` reduced modulo `2 ^ 32`.
* characters are their ASCII codes.
-/

namespace BoardIdentity

/-! ## Memory -/

/-- A byte buffer in the caller's memory, indexed from its first byte. -/
abbrev Buffer := Nat → Option Nat

/-- A buffer of which no byte has been stored yet. -/
def Buffer.fresh : Buffer := fun _ => none

/-- The assignment `b[i] = v`. -/
def Buffer.store (b : Buffer) (i v : Nat) : Buffer :=
  fun j => if j = i then some v else b j

/-- Reading the `uint8_t` object `b[i]`. -/
def Buffer.read8 (b : Buffer) (i : Nat) : Nat :=
  (b i).getD 0 % 256

/-- Stores the bytes `cs` at `b[off]`, `b[off + 1]`, ... in this order. -/
def Buffer.storeAll (b : Buffer) (off : Nat) : List Nat → Buffer
  | [] => b
  | c :: cs => Buffer.storeAll (b.store off c) (off + 1) cs

/-- Byte order in which the host lays a 32-bit word out in memory. -/
inductive ByteOrder
  | little
  | big
  deriving DecidableEq, Repr

/-- The four bytes a 32-bit word occupies in memory, lowest address first. -/
def wordImage (e : ByteOrder) (w : Nat) : List Nat :=
  match e with
  | .little => [w % 256, w / 2 ^ 8 % 256, w / 2 ^ 16 % 256, w / 2 ^ 24 % 256]
  | .big => [w / 2 ^ 24 % 256, w / 2 ^ 16 % 256, w / 2 ^ 8 % 256, w % 256]

/-- The bytes of a word array as seen through the `b` member of the union
`{ uuid_byte_t b; uuid_uint32_t w; }`. -/
def unionBytes (e : ByteOrder) (words : List Nat) : List Nat :=
  words.flatMap (wordImage e)

/-! ## Registers and constants -/

/-- The OCOTP registers read by this file. -/
inductive Reg
  | IMXRT_OCOTP_CFG0
  | IMXRT_OCOTP_CFG1
  deriving DecidableEq, Repr

/-- The register read `getreg32(addr)`: a 32-bit value. -/
def getreg32 (hw : Reg → Nat) (addr : Reg) : Nat :=
  hw addr % 2 ^ 32

/-- Modelled from the spec: the header constant `PX4_CPU_UUID_BYTE_LENGTH`
is not part of the sources; the UUID is the "fixed-length (8-byte)
sequence" of the data model. -/
def PX4_CPU_UUID_BYTE_LENGTH : Nat := 8

/-- Modelled from the spec: the header constant `PX4_CPU_UUID_WORD32_LENGTH`
is not part of the sources; the raw UUID is "two unsigned 32-bit values". -/
def PX4_CPU_UUID_WORD32_LENGTH : Nat := 2

/-- Modelled from the spec: the header constant `PX4_CPU_MFGUID_BYTE_LENGTH`
is not part of the sources; the manufacturer GUID is "identical in
content/length to UUID bytes". -/
def PX4_CPU_MFGUID_BYTE_LENGTH : Nat := PX4_CPU_UUID_BYTE_LENGTH

/-- Modelled from the spec: the header constant `PX4_GUID_BYTE_LENGTH` is
not part of the sources; the vendor GUID has a "fixed total length (e.g.,
18 bytes)". -/
def PX4_GUID_BYTE_LENGTH : Nat := 18

/-- The value of `sizeof(soc_arch_id)`, a `uint16_t`. -/
def sizeof_soc_arch_id : Nat := 2

/-- The constant `static const uint16_t soc_arch_id = PX4_SOC_ARCH_ID`; the
header value `PX4_SOC_ARCH_ID` is a parameter. -/
def soc_arch_id (PX4_SOC_ARCH_ID : Nat) : Nat :=
  PX4_SOC_ARCH_ID % 2 ^ 16

/-- The table `CPU_UUID_BYTE_FORMAT_ORDER`. -/
def CPU_UUID_BYTE_FORMAT_ORDER : List Nat := [3, 2, 1, 0, 7, 6, 5, 4]

/-- The macro `SWAP_UINT32(x)` on a 32-bit unsigned operand. -/
def SWAP_UINT32 (x : Nat) : Nat :=
  ((x >>> 24) ||| ((x &&& 0x00ff0000) >>> 8) ||| ((x &&& 0x0000ff00) <<< 8) ||| (x <<< 24))
    % 2 ^ 32

/-! ## Raw identifiers -/

/-- The function `board_get_uuid32`: `uuid_words[0]` is `IMXRT_OCOTP_CFG1`
and `uuid_words[1]` is `IMXRT_OCOTP_CFG0`. -/
def board_get_uuid32 (hw : Reg → Nat) : List Nat :=
  [getreg32 hw Reg.IMXRT_OCOTP_CFG1, getreg32 hw Reg.IMXRT_OCOTP_CFG0]

/-- The function `board_get_uuid`, writing through the pointer
`uuid_bytes`, which is the buffer `mem` at base index `p`. -/
def board_get_uuid (e : ByteOrder) (hw : Reg → Nat) (mem : Buffer) (p : Nat) : Buffer :=
  let reorder := CPU_UUID_BYTE_FORMAT_ORDER
  let id_b := unionBytes e (board_get_uuid32 hw)
  (List.range PX4_CPU_UUID_BYTE_LENGTH).foldl
    (fun uuid_bytes i => uuid_bytes.store (p + i) (id_b.getD (reorder.getD i 0) 0)) mem

/-- The function `board_get_mfguid`: the buffer after the call and the
returned length. -/
def board_get_mfguid (e : ByteOrder) (hw : Reg → Nat) (mfgid : Buffer) : Buffer × Int :=
  (board_get_uuid e hw mfgid 0, PX4_CPU_MFGUID_BYTE_LENGTH)

/-- The function `board_get_px4_guid`: the buffer after the call and the
returned length.  The pointer `pb` is an index into `px4_guid`. -/
def board_get_px4_guid (e : ByteOrder) (hw : Reg → Nat) (arch : Nat) (px4_guid : Buffer) :
    Buffer × Int :=
  let pb := 0
  let g := px4_guid.store pb ((soc_arch_id arch >>> 8) &&& 0xff)
  let pb := pb + 1
  let g := g.store pb (soc_arch_id arch &&& 0xff)
  let pb := pb + 1
  let st := (List.range (PX4_GUID_BYTE_LENGTH - (sizeof_soc_arch_id + PX4_CPU_UUID_BYTE_LENGTH))).foldl
    (fun (st : Buffer × Nat) _ => (st.1.store st.2 0, st.2 + 1)) (g, pb)
  (board_get_uuid e hw st.1 st.2, PX4_GUID_BYTE_LENGTH)

/-! ## Formatting -/

/-- Conversion of an `int` to `unsigned` / `size_t`, both 32 bits wide. -/
def toUnsigned (x : Int) : Nat :=
  (x % 2 ^ 32).toNat

/-- The lowercase hexadecimal digit of a value below 16, as printed by `%x`. -/
def hexChar (d : Nat) : Nat :=
  if d < 10 then 48 + d else 87 + d

/-- Hexadecimal digits of `v`, least significant first, at most `n` of them. -/
def hexDigitsRev : Nat → Nat → List Nat
  | 0, _ => []
  | n + 1, v => if v < 16 then [hexChar v] else hexChar (v % 16) :: hexDigitsRev n (v / 16)

/-- The text `printf` produces for the conversion `%0<width>x` of an
`unsigned int`: its hexadecimal digits, padded on the left with `'0'` to at
least `width` characters. -/
def fmt_0x (width v : Nat) : List Nat :=
  let digits := (hexDigitsRev 8 (v % 2 ^ 32)).reverse
  List.replicate (width - digits.length) 48 ++ digits

/-- The text of the format `"%02x"`. -/
def fmt_02x (v : Nat) : List Nat :=
  fmt_0x 2 v

/-- The call `snprintf(&buf[off], n, fmt, ...)` whose complete output would
be `text`: with `n = 0` nothing is stored, otherwise the first `n - 1`
characters of `text` and a terminating NUL are; the value returned is the
length of the complete `text`. -/
def snprintf (buf : Buffer) (off n : Nat) (text : List Nat) : Buffer × Int :=
  if n = 0 then (buf, text.length)
  else (buf.storeAll off (text.take (n - 1) ++ [0]), text.length)

/-- State of the two hex formatting loops: the caller's buffer, the local
`offset`, and a record of the bound that was passed to each `snprintf`
call so far, oldest first. -/
structure FmtState where
  format_buffer : Buffer
  offset : Int
  bounds : List Nat

/-- The loop body shared by both hex formatters:
`offset += snprintf(&format_buffer[offset], size - offset, "%02x", byte)`. -/
def snprintf_step (size : Int) (st : FmtState) (byte : Nat) : FmtState :=
  let n := toUnsigned (size - st.offset)
  let r := snprintf st.format_buffer st.offset.toNat n (fmt_02x byte)
  { format_buffer := r.1, offset := st.offset + r.2, bounds := st.bounds ++ [n] }

/-- The function `board_get_mfguid_formated`.  The field `offset` of the
result is the value returned. -/
def board_get_mfguid_formated (e : ByteOrder) (hw : Reg → Nat) (format_buffer : Buffer)
    (size : Int) : FmtState :=
  let mfguid := (board_get_mfguid e hw Buffer.fresh).1
  (List.range PX4_CPU_MFGUID_BYTE_LENGTH).foldl
    (fun st i => snprintf_step size st (mfguid.read8 i))
    { format_buffer := format_buffer, offset := 0, bounds := [] }

/-- The loop of `board_get_px4_guid_formated`,
`for (...; offset < size && i < PX4_GUID_BYTE_LENGTH; i++)`, with `i` an
`unsigned`.  The first argument bounds the number of condition tests; the
result is `none` when it is used up before the condition fails. -/
def px4_guid_loop (px4_guid : Buffer) (size : Int) : Nat → Nat → FmtState → Option FmtState
  | 0, _, _ => none
  | fuel + 1, i, st =>
    if st.offset < size ∧ i < PX4_GUID_BYTE_LENGTH then
      px4_guid_loop px4_guid size fuel ((i + 1) % 2 ^ 32)
        (snprintf_step size st (px4_guid.read8 i))
    else some st

/-- The function `board_get_px4_guid_formated`.  The field `offset` of the
result is the value returned. -/
def board_get_px4_guid_formated (e : ByteOrder) (hw : Reg → Nat) (arch : Nat)
    (format_buffer : Buffer) (size : Int) : Option FmtState :=
  let px4_guid := (board_get_px4_guid e hw arch Buffer.fresh).1
  let size := if size % 2 ≠ 0 then size else size - 1
  let i := toUnsigned ((PX4_GUID_BYTE_LENGTH : Int) - Int.tdiv size 2)
  px4_guid_loop px4_guid size (PX4_GUID_BYTE_LENGTH + 1) i
    { format_buffer := format_buffer, offset := 0, bounds := [] }

/-! ## Reading text back -/

/-- The NUL-terminated string starting at `b[i]`, reading at most `n`
characters; reading stops at a byte that was never stored. -/
def Buffer.cstr (b : Buffer) : Nat → Nat → List Nat
  | 0, _ => []
  | n + 1, i =>
    match b i with
    | none => []
    | some c => if c = 0 then [] else c :: Buffer.cstr b n (i + 1)

/-- The bytes `b[i]`, ..., `b[i + n - 1]`, with 0 for a byte never stored. -/
def Buffer.bytes (b : Buffer) (i n : Nat) : List Nat :=
  (List.range n).map (fun k => b.read8 (i + k))

/-- The value of a hexadecimal digit character. -/
def hexVal (c : Nat) : Option Nat :=
  if 48 ≤ c ∧ c ≤ 57 then some (c - 48)
  else if 97 ≤ c ∧ c ≤ 102 then some (c - 87)
  else if 65 ≤ c ∧ c ≤ 70 then some (c - 55)
  else none

/-- Hex-decoding of a text, two characters per byte, most significant
digit first; `none` unless the text is an even number of hex digits. -/
def hexDecode : List Nat → Option (List Nat)
  | [] => some []
  | [_] => none
  | h :: l :: rest =>
    match hexVal h, hexVal l, hexDecode rest with
    | some a, some b, some r => some ((16 * a + b) :: r)
    | _, _, _ => none

/-- A character of `0`..`9` or `a`..`f`. -/
def isLowerHex (c : Nat) : Prop :=
  (48 ≤ c ∧ c ≤ 57) ∨ (97 ≤ c ∧ c ≤ 102)

/-- A register content used for concrete evaluations:
`IMXRT_OCOTP_CFG1 = 0x12345678`, `IMXRT_OCOTP_CFG0 = 0x9abcdef0`. -/
def exampleOcotp : Reg → Nat
  | Reg.IMXRT_OCOTP_CFG1 => 0x12345678
  | Reg.IMXRT_OCOTP_CFG0 => 0x9abcdef0

/-- The number of GUID bytes `board_get_px4_guid_formated` is asked for by
`size`: half of `size` made odd (`size` if odd, `size - 1` if even). -/
def keptBytes (size : Int) : Nat :=
  ((if size % 2 = 1 then size else size - 1) / 2).toNat

/-! ## Formatting the raw words -/

/-- The value of `sizeof(uint32_t)`. -/
def sizeof_uint32_t : Nat := 4

/-- Conversion of a `size_t` to `int`. -/
def toInt (n : Nat) : Int :=
  if n % 2 ^ 32 < 2 ^ 31 then ((n % 2 ^ 32 : Nat) : Int) else ((n % 2 ^ 32 : Nat) : Int) - 2 ^ 32

/-- The length `strlen(&b[i])` of the string at `b[i]`, searching at most
`n` bytes; `none` when no NUL is found before a byte that was never stored
is reached. -/
def Buffer.strlen (b : Buffer) : Nat → Nat → Option Nat
  | 0, _ => none
  | n + 1, i =>
    match b i with
    | none => none
    | some c => if c = 0 then some 0 else (Buffer.strlen b n (i + 1)).map (fun l => l + 1)

/-- The call `strcat(&buf[off], src)`: the characters of `src` and a NUL
are stored from the terminating NUL of the string at `buf[off]` on; `none`
when that string has no terminator among the bytes stored so far (the
search is limited to the 32-bit address space). -/
def strcat (buf : Buffer) (off : Nat) (src : List Nat) : Option Buffer :=
  (buf.strlen (2 ^ 32) off).map (fun l => buf.storeAll (off + l) (src ++ [0]))

/-- State of the loop of `board_get_uuid32_formated`: the caller's buffer,
the local `offset`, and whether the buffer contents are still determined
(`false` once `strcat` was applied to a string without terminator). -/
structure Uuid32State where
  format_buffer : Buffer
  offset : Int
  determinate : Bool

/-- The loop body of `board_get_uuid32_formated` for the index `i`.  The
argument `format` gives the text `snprintf` produces from the format string
for a word; `seperator` is `none` for a NULL pointer. -/
def uuid32_loop_body (size : Int) (format : Nat → List Nat) (seperator : Option (List Nat))
    (sep_size : Int) (uuid : List Nat) (st : Uuid32State) (i : Nat) : Uuid32State :=
  let n := toUnsigned (size - ((i * 2 * sizeof_uint32_t + 1 : Nat) : Int))
  let r := snprintf st.format_buffer st.offset.toNat n (format (uuid.getD i 0))
  let offset := st.offset + r.2
  if sep_size ≠ 0 ∧ i < PX4_CPU_UUID_WORD32_LENGTH - 1 then
    match strcat r.1 offset.toNat (seperator.getD []) with
    | some b => { format_buffer := b, offset := offset + sep_size, determinate := st.determinate }
    | none => { format_buffer := r.1, offset := offset + sep_size, determinate := false }
  else { format_buffer := r.1, offset := offset, determinate := st.determinate }

/-- The function `board_get_uuid32_formated`: the final loop state and the
value returned. -/
def board_get_uuid32_formated (hw : Reg → Nat) (format_buffer : Buffer) (size : Int)
    (format : Nat → List Nat) (seperator : Option (List Nat)) : Uuid32State × Int :=
  let uuid := board_get_uuid32 hw
  let offset : Int := 0
  let sep_size : Int :=
    match seperator with
    | some s => toInt s.length
    | none => 0
  let st := (List.range PX4_CPU_UUID_WORD32_LENGTH).foldl
    (uuid32_loop_body size format seperator sep_size uuid)
    { format_buffer := format_buffer, offset := offset, determinate := true }
  (st, 0)

/-! ## Encodings the specification speaks of -/

/-- The 8-digit lowercase zero-padded hexadecimal text of a 32-bit word. -/
def hex8 (w : Nat) : List Nat :=
  [hexChar (w / 16 ^ 7 % 16), hexChar (w / 16 ^ 6 % 16), hexChar (w / 16 ^ 5 % 16),
   hexChar (w / 16 ^ 4 % 16), hexChar (w / 16 ^ 3 % 16), hexChar (w / 16 ^ 2 % 16),
   hexChar (w / 16 % 16), hexChar (w % 16)]

/-- The big-endian encoding of a 32-bit word: most significant byte first. -/
def bigEndian32 (w : Nat) : List Nat :=
  [w / 2 ^ 24 % 256, w / 2 ^ 16 % 256, w / 2 ^ 8 % 256, w % 256]

/-- The little-endian encoding of a 32-bit word: least significant byte first. -/
def littleEndian32 (w : Nat) : List Nat :=
  [w % 256, w / 2 ^ 8 % 256, w / 2 ^ 16 % 256, w / 2 ^ 24 % 256]

/-- The number a byte sequence stands for when read big-endian. -/
def bigEndianValue (bytes : List Nat) : Nat :=
  bytes.foldl (fun acc b => acc * 256 + b) 0

/-- The ASCII text `":"`, a separator of one character. -/
def colon : List Nat := [58]

/-! ## Auxiliary definitions for the proofs -/

/-- The hex digit that ends up `k` characters after the start of a run
encoding the bytes `g[i]`, `g[i + 1]`, ... -/
def hexNibble (g : Buffer) (i k : Nat) : Nat :=
  hexChar (if k % 2 = 0 then g.read8 (i + k / 2) / 16 else g.read8 (i + k / 2) % 16)

/-- The state after `n` consecutive loop bodies on `g[i]`, `g[i + 1]`, ... -/
def steps (g : Buffer) (size : Int) : Nat → Nat → FmtState → FmtState
  | 0, _, st => st
  | n + 1, i, st => steps g size n (i + 1) (snprintf_step size st (g.read8 i))

/-! ## Memory lemmas -/

theorem storeAll_apply (cs : List Nat) (b : Buffer) (off j : Nat) :
    b.storeAll off cs j =
      if off ≤ j ∧ j < off + cs.length then some (cs.getD (j - off) 0) else b j := by
  induction cs generalizing b off with
  | nil =>
    have h : ¬ (off ≤ j ∧ j < off + ([] : List Nat).length) := by
      simp only [List.length_nil]; omega
    rw [if_neg h, Buffer.storeAll]
  | cons c cs ih =>
    rw [Buffer.storeAll, ih]
    by_cases h1 : off + 1 ≤ j ∧ j < off + 1 + cs.length
    · have h2 : off ≤ j ∧ j < off + (c :: cs).length := by
        simp only [List.length_cons]; omega
      have h3 : j - off = (j - (off + 1)) + 1 := by omega
      rw [if_pos h1, if_pos h2, h3]
      simp
    · rw [if_neg h1]
      by_cases h4 : j = off
      · subst h4
        simp [Buffer.store]
      · have h2 : ¬ (off ≤ j ∧ j < off + (c :: cs).length) := by
          simp only [List.length_cons]; omega
        rw [if_neg h2]
        simp [Buffer.store, h4]

theorem and_0xff (x : Nat) : x &&& 0xff = x % 256 :=
  Nat.and_pow_two_sub_one_eq_mod x 8

/-- Pointwise description of the buffer after `board_get_uuid`. -/
theorem board_get_uuid_apply (e : ByteOrder) (hw : Reg → Nat) (mem : Buffer) (p j : Nat) :
    board_get_uuid e hw mem p j =
      if p ≤ j ∧ j < p + 8 then
        some ((unionBytes e (board_get_uuid32 hw)).getD
          (CPU_UUID_BYTE_FORMAT_ORDER.getD (j - p) 0) 0)
      else mem j := by
  simp only [board_get_uuid, PX4_CPU_UUID_BYTE_LENGTH, List.range, List.range.loop,
    List.foldl, Buffer.store]
  by_cases h : p ≤ j ∧ j < p + 8
  · rw [if_pos h]
    obtain ⟨k, rfl⟩ : ∃ k, j = p + k := ⟨j - p, by omega⟩
    have hk : k < 8 := by omega
    interval_cases k <;> simp
  · rw [if_neg h]
    have h0 : j ≠ p := by omega
    have h1 : j ≠ p + 1 := by omega
    have h2 : j ≠ p + 2 := by omega
    have h3 : j ≠ p + 3 := by omega
    have h4 : j ≠ p + 4 := by omega
    have h5 : j ≠ p + 5 := by omega
    have h6 : j ≠ p + 6 := by omega
    have h7 : j ≠ p + 7 := by omega
    simp [h0, h1, h2, h3, h4, h5, h6, h7]

/-- Pointwise description of the buffer after `board_get_px4_guid`. -/
theorem board_get_px4_guid_apply (e : ByteOrder) (hw : Reg → Nat) (arch : Nat) (mem : Buffer)
    (j : Nat) :
    (board_get_px4_guid e hw arch mem).1 j =
      if j = 0 then some (soc_arch_id arch / 256 % 256)
      else if j = 1 then some (soc_arch_id arch % 256)
      else if j < 10 then some 0
      else if j < 18 then board_get_uuid e hw Buffer.fresh 0 (j - 10)
      else mem j := by
  simp only [board_get_px4_guid, PX4_GUID_BYTE_LENGTH, sizeof_soc_arch_id,
    PX4_CPU_UUID_BYTE_LENGTH, List.range, List.range.loop, List.foldl, and_0xff,
    Nat.shiftRight_eq_div_pow]
  rw [board_get_uuid_apply, board_get_uuid_apply]
  by_cases h : 10 ≤ j ∧ j < 18
  · have h0 : ¬ j = 0 := by omega
    have h1 : ¬ j = 1 := by omega
    have h2 : ¬ j < 10 := by omega
    have h3 : (0 + 1 + 1 + 1 + 1 + 1 + 1 + 1 + 1 + 1 + 1 ≤ j ∧
        j < 0 + 1 + 1 + 1 + 1 + 1 + 1 + 1 + 1 + 1 + 1 + 8) := by omega
    have h4 : 0 ≤ j - 10 ∧ j - 10 < 0 + 8 := by omega
    rw [if_pos h3, if_neg h0, if_neg h1, if_neg h2, if_pos h.2, if_pos h4]
    simp
  · have h3 : ¬ (0 + 1 + 1 + 1 + 1 + 1 + 1 + 1 + 1 + 1 + 1 ≤ j ∧
        j < 0 + 1 + 1 + 1 + 1 + 1 + 1 + 1 + 1 + 1 + 1 + 8) := by omega
    rw [if_neg h3]
    by_cases h18 : 18 ≤ j
    · have e0 : ¬ j = 0 := by omega
      have e1 : ¬ j = 1 := by omega
      have e2 : ¬ j < 10 := by omega
      have e3 : ¬ j < 18 := by omega
      rw [if_neg e0, if_neg e1, if_neg e2, if_neg e3]
      have : ∀ k, k < 10 → j ≠ k := by intro k hk; omega
      simp [Buffer.store, this]
    · have hj : j < 10 := by omega
      interval_cases j <;> simp [Buffer.store]

/-! ## Formatting lemmas -/

theorem fmt_02x_byte (b : Nat) (hb : b < 256) :
    fmt_02x b = [hexChar (b / 16), hexChar (b % 16)] := by
  have h1 : b % 2 ^ 32 = b := by omega
  simp only [fmt_02x, fmt_0x, h1]
  by_cases h : b < 16
  · have h2 : b / 16 = 0 := by omega
    have h3 : b % 16 = b := by omega
    simp [hexDigitsRev, h, h2, h3, hexChar]
  · have h2 : b / 16 < 16 := by omega
    simp [hexDigitsRev, h, h2]

theorem hexChar_isLowerHex (d : Nat) (hd : d < 16) : isLowerHex (hexChar d) := by
  unfold isLowerHex hexChar
  split <;> omega

theorem hexChar_ne_zero (d : Nat) : hexChar d ≠ 0 := by
  unfold hexChar
  split <;> omega

theorem hexVal_hexChar (d : Nat) (hd : d < 16) : hexVal (hexChar d) = some d := by
  unfold hexVal hexChar
  by_cases h : d < 10
  · have h1 : 48 ≤ 48 + d ∧ 48 + d ≤ 57 := by omega
    rw [if_pos h, if_pos h1]
    congr 1; omega
  · have h1 : ¬ (48 ≤ 87 + d ∧ 87 + d ≤ 57) := by omega
    have h2 : 97 ≤ 87 + d ∧ 87 + d ≤ 102 := by omega
    rw [if_neg h, if_neg h1, if_pos h2]
    congr 1; omega

/-- A loop body whose bound leaves room for both digits and the NUL. -/
theorem snprintf_step_full (size : Int) (st : FmtState) (byte off : Nat)
    (hoff : st.offset = off) (hroom : (off : Int) + 3 ≤ size) (hmax : size < 2 ^ 31)
    (hb : byte < 256) :
    snprintf_step size st byte =
      { format_buffer :=
          st.format_buffer.storeAll off [hexChar (byte / 16), hexChar (byte % 16), 0],
        offset := (off : Int) + 2,
        bounds := st.bounds ++ [(size - off).toNat] } := by
  have hn : toUnsigned (size - off) = (size - off).toNat := by
    unfold toUnsigned; omega
  have h3 : 3 ≤ (size - off).toNat := by omega
  have h0 : (size - off).toNat ≠ 0 := by omega
  have ht : List.take ((size - (off : Int)).toNat - 1)
      [hexChar (byte / 16), hexChar (byte % 16)] = [hexChar (byte / 16), hexChar (byte % 16)] := by
    apply List.take_of_length_le
    simp only [List.length_cons, List.length_nil]; omega
  simp only [snprintf_step, snprintf, hoff, hn, if_neg h0, fmt_02x_byte byte hb, ht,
    Int.toNat_ofNat]
  simp

theorem read8_lt (g : Buffer) (i : Nat) : g.read8 i < 256 := by
  unfold Buffer.read8; omega

/-- What `n` loop bodies do when the buffer has room for all of them. -/
theorem steps_spec (g : Buffer) (size : Int) (hmax : size < 2 ^ 31) :
    ∀ (n i off : Nat) (st : FmtState), st.offset = off → (off : Int) + 2 * n + 1 ≤ size →
      (steps g size n i st).offset = (off : Int) + 2 * n ∧
      (∀ j, (steps g size n i st).format_buffer j =
        if off ≤ j ∧ j < off + 2 * n then some (hexNibble g i (j - off))
        else if j = off + 2 * n ∧ 0 < n then some 0
        else st.format_buffer j) ∧
      (steps g size n i st).bounds.length = st.bounds.length + n ∧
      (∀ c ∈ (steps g size n i st).bounds, c ∈ st.bounds ∨ 3 ≤ c) := by
  intro n
  induction n with
  | zero =>
    intro i off st hoff _
    refine ⟨by simp [steps, hoff], ?_, by simp [steps], ?_⟩
    · intro j
      have h1 : ¬ (off ≤ j ∧ j < off + 2 * 0) := by omega
      have h2 : ¬ (j = off + 2 * 0 ∧ 0 < 0) := by omega
      rw [if_neg h1, if_neg h2]
      rfl
    · intro c hc
      exact Or.inl hc
  | succ n ih =>
    intro i off st hoff hroom
    have hstep := snprintf_step_full size st (g.read8 i) off hoff (by omega) hmax (read8_lt g i)
    have hrec := ih (i + 1) (off + 2) (snprintf_step size st (g.read8 i))
      (by rw [hstep]; push_cast; rfl) (by push_cast; omega)
    rw [steps]
    obtain ⟨ho, hbuf, hlen, hbd⟩ := hrec
    refine ⟨by rw [ho]; push_cast; omega, ?_, ?_, ?_⟩
    · intro j
      rw [hbuf j, hstep]
      simp only [storeAll_apply, List.length_cons, List.length_nil]
      by_cases h2 : off + 2 ≤ j ∧ j < off + 2 + 2 * n
      · have r1 : off ≤ j ∧ j < off + 2 * (n + 1) := by omega
        rw [if_pos h2, if_pos r1]
        have hk : j - off = (j - (off + 2)) + 2 := by omega
        simp only [hexNibble, hk]
        have e1 : (j - (off + 2) + 2) % 2 = (j - (off + 2)) % 2 := by omega
        have e2 : i + (j - (off + 2) + 2) / 2 = i + 1 + (j - (off + 2)) / 2 := by omega
        rw [e1, e2]
      · rw [if_neg h2]
        by_cases h3 : j = off + 2 + 2 * n ∧ 0 < n
        · have r1 : ¬ (off ≤ j ∧ j < off + 2 * (n + 1)) := by omega
          have r2 : j = off + 2 * (n + 1) ∧ 0 < n + 1 := by omega
          rw [if_pos h3, if_neg r1, if_pos r2]
        · rw [if_neg h3]
          by_cases h4 : off ≤ j ∧ j < off + 2
          · have l1 : off ≤ j ∧ j < off + (0 + 1 + 1 + 1) := by omega
            have r1 : off ≤ j ∧ j < off + 2 * (n + 1) := by omega
            rw [if_pos l1, if_pos r1]
            have hj : j = off ∨ j = off + 1 := by omega
            rcases hj with rfl | rfl <;> simp [hexNibble]
          · have r1 : ¬ (off ≤ j ∧ j < off + 2 * (n + 1)) := by omega
            rw [if_neg r1]
            by_cases h5 : j = off + 2
            · have l1 : off ≤ j ∧ j < off + (0 + 1 + 1 + 1) := by omega
              have r2 : j = off + 2 * (n + 1) ∧ 0 < n + 1 := by omega
              rw [if_pos l1, if_pos r2]
              subst h5
              simp
            · have l1 : ¬ (off ≤ j ∧ j < off + (0 + 1 + 1 + 1)) := by omega
              have r2 : ¬ (j = off + 2 * (n + 1) ∧ 0 < n + 1) := by omega
              rw [if_neg l1, if_neg r2]
    · rw [hlen, hstep]
      simp only [List.length_append, List.length_cons, List.length_nil]
      omega
    · intro c hc
      rcases hbd c hc with h | h
      · rw [hstep] at h
        simp only [List.mem_append, List.mem_singleton] at h
        rcases h with h | h
        · exact Or.inl h
        · right; omega
      · exact Or.inr h

/-- The loop of `board_get_px4_guid_formated` performs exactly the `n`
bodies the normalised size asks for and then leaves by its condition. -/
theorem px4_guid_loop_eq_steps (g : Buffer) (size : Int) (hmax : size < 2 ^ 31) :
    ∀ (n fuel i off : Nat) (st : FmtState), n < fuel → i + n = 18 → st.offset = off →
      (off : Int) + 2 * n + 1 = size →
      px4_guid_loop g size fuel i st = some (steps g size n i st) := by
  intro n
  induction n with
  | zero =>
    intro fuel i off st hf hi hoff _
    obtain ⟨f, rfl⟩ : ∃ f, fuel = f + 1 := ⟨fuel - 1, by omega⟩
    have hc : ¬ (st.offset < size ∧ i < PX4_GUID_BYTE_LENGTH) := by
      simp only [PX4_GUID_BYTE_LENGTH]; omega
    rw [px4_guid_loop, if_neg hc, steps]
  | succ n ih =>
    intro fuel i off st hf hi hoff hsz
    obtain ⟨f, rfl⟩ : ∃ f, fuel = f + 1 := ⟨fuel - 1, by omega⟩
    have hc : st.offset < size ∧ i < PX4_GUID_BYTE_LENGTH := by
      simp only [PX4_GUID_BYTE_LENGTH]; omega
    have hi1 : (i + 1) % 2 ^ 32 = i + 1 := by omega
    have hstep := snprintf_step_full size st (g.read8 i) off hoff (by omega) hmax (read8_lt g i)
    rw [px4_guid_loop, if_pos hc, hi1, steps]
    exact ih f (i + 1) (off + 2) _ (by omega) (by omega) (by rw [hstep]; push_cast; rfl)
      (by push_cast; omega)

/-- For a size of 3..38, that is `2 * k + 1` or `2 * k + 2` with
`1 ≤ k ≤ 18`, `board_get_px4_guid_formated` runs `k` loop bodies on the
last `k` bytes of the GUID. -/
theorem px4_guid_formated_in_range (e : ByteOrder) (hw : Reg → Nat) (arch : Nat)
    (format_buffer : Buffer) (size : Int) (k : Nat) (hk : k ≤ 18)
    (hs : size = 2 * (k : Int) + 1 ∨ size = 2 * (k : Int) + 2) :
    board_get_px4_guid_formated e hw arch format_buffer size =
      some (steps (board_get_px4_guid e hw arch Buffer.fresh).1 (2 * (k : Int) + 1) k (18 - k)
        { format_buffer := format_buffer, offset := 0, bounds := [] }) := by
  have hnorm : (if size % 2 ≠ 0 then size else size - 1) = 2 * (k : Int) + 1 := by
    rcases hs with h | h
    · rw [if_pos (by omega)]; exact h
    · rw [if_neg (by omega)]; omega
  have hdiv : Int.tdiv (2 * (k : Int) + 1) 2 = k := by
    rw [Int.tdiv_eq_ediv (by omega) (by omega)]; omega
  have hi : toUnsigned ((PX4_GUID_BYTE_LENGTH : Int) - (k : Int)) = 18 - k := by
    simp only [toUnsigned, PX4_GUID_BYTE_LENGTH]; omega
  simp only [board_get_px4_guid_formated, hnorm, hdiv, hi]
  exact px4_guid_loop_eq_steps _ _ (by omega) k _ (18 - k) 0 _
    (by simp only [PX4_GUID_BYTE_LENGTH]; omega) (by omega) rfl (by push_cast; omega)

/-- For any other `int` size (`INT_MIN` apart) the loop of
`board_get_px4_guid_formated` is left at its first test. -/
theorem px4_guid_formated_out_of_range (e : ByteOrder) (hw : Reg → Nat) (arch : Nat)
    (format_buffer : Buffer) (size : Int) (hmin : -2 ^ 31 < size) (hmax : size < 2 ^ 31)
    (hs : size ≤ 2 ∨ 39 ≤ size) :
    board_get_px4_guid_formated e hw arch format_buffer size =
      some { format_buffer := format_buffer, offset := 0, bounds := [] } := by
  simp only [board_get_px4_guid_formated]
  have hfuel : PX4_GUID_BYTE_LENGTH + 1 = 18 + 1 := rfl
  rw [hfuel, px4_guid_loop]
  apply if_neg
  simp only [PX4_GUID_BYTE_LENGTH]
  intro hc
  obtain ⟨hc1, hc2⟩ := hc
  have hpos : 0 ≤ (if size % 2 ≠ 0 then size else size - 1) := by omega
  rw [Int.tdiv_eq_ediv hpos (by omega)] at hc2
  unfold toUnsigned at hc2
  split at hc1 <;> split at hc2 <;> omega

theorem hexNibble_even (g : Buffer) (i m : Nat) :
    hexNibble g i (2 * m) = hexChar (g.read8 (i + m) / 16) := by
  have h1 : 2 * m % 2 = 0 := by omega
  have h2 : 2 * m / 2 = m := by omega
  simp only [hexNibble, h1, h2, if_true]

theorem hexNibble_odd (g : Buffer) (i m : Nat) :
    hexNibble g i (2 * m + 1) = hexChar (g.read8 (i + m) % 16) := by
  have h1 : ¬ (2 * m + 1) % 2 = 0 := by omega
  have h2 : (2 * m + 1) / 2 = m := by omega
  simp only [hexNibble, h1, h2, if_false]

theorem hexNibble_isLowerHex (g : Buffer) (i k : Nat) : isLowerHex (hexNibble g i k) := by
  unfold hexNibble
  have h := read8_lt g (i + k / 2)
  split
  · exact hexChar_isLowerHex _ (by omega)
  · exact hexChar_isLowerHex _ (by omega)

/-- The bytes of the vendor GUID do not depend on what the array held before. -/
theorem px4_guid_read8_eq (e : ByteOrder) (hw : Reg → Nat) (arch : Nat) (mem mem2 : Buffer)
    (i : Nat) (hi : i < 18) :
    (board_get_px4_guid e hw arch mem).1.read8 i = (board_get_px4_guid e hw arch mem2).1.read8 i := by
  unfold Buffer.read8
  rw [board_get_px4_guid_apply, board_get_px4_guid_apply]
  have h : ¬ (¬ i < 18) := by omega
  split_ifs <;> rfl

/-- The bytes of the manufacturer GUID do not depend on what the array held
before. -/
theorem mfguid_read8_eq (e : ByteOrder) (hw : Reg → Nat) (mem mem2 : Buffer)
    (i : Nat) (hi : i < 8) :
    (board_get_mfguid e hw mem).1.read8 i = (board_get_mfguid e hw mem2).1.read8 i := by
  unfold Buffer.read8 board_get_mfguid
  simp only
  rw [board_get_uuid_apply, board_get_uuid_apply, if_pos (by omega), if_pos (by omega)]

/-- Full description of `board_get_px4_guid_formated` for a size of 3..38. -/
theorem px4_guid_formated_spec (e : ByteOrder) (hw : Reg → Nat) (arch : Nat)
    (format_buffer : Buffer) (size : Int) (h3 : 3 ≤ size) (h38 : size ≤ 38) :
    ∃ st, board_get_px4_guid_formated e hw arch format_buffer size = some st ∧
      st.offset = 2 * (keptBytes size : Int) ∧
      (∀ j, st.format_buffer j =
        if j < 2 * keptBytes size then
          some (hexNibble (board_get_px4_guid e hw arch Buffer.fresh).1 (18 - keptBytes size) j)
        else if j = 2 * keptBytes size then some 0
        else format_buffer j) ∧
      st.bounds.length = keptBytes size ∧
      (∀ c ∈ st.bounds, 3 ≤ c) := by
  have hk1 : 1 ≤ keptBytes size := by unfold keptBytes; split <;> omega
  have hk18 : keptBytes size ≤ 18 := by unfold keptBytes; split <;> omega
  have hs : size = 2 * (keptBytes size : Int) + 1 ∨ size = 2 * (keptBytes size : Int) + 2 := by
    unfold keptBytes; split <;> omega
  generalize keptBytes size = k at hk1 hk18 hs
  refine ⟨_, px4_guid_formated_in_range e hw arch format_buffer size k hk18 hs, ?_⟩
  obtain ⟨ho, hbuf, hlen, hbd⟩ := steps_spec (board_get_px4_guid e hw arch Buffer.fresh).1
    (2 * (k : Int) + 1) (by omega) k (18 - k) 0
    { format_buffer := format_buffer, offset := 0, bounds := [] } rfl (by push_cast; omega)
  refine ⟨by rw [ho]; push_cast; omega, ?_, by rw [hlen]; simp, ?_⟩
  · intro j
    rw [hbuf j]
    by_cases h1 : j < 2 * k
    · rw [if_pos (by omega), if_pos h1]
      simp
    · rw [if_neg (by omega), if_neg h1]
      by_cases h2 : j = 2 * k
      · rw [if_pos (by omega), if_pos h2]
      · rw [if_neg (by omega), if_neg h2]
  · intro c hc
    rcases hbd c hc with h | h
    · simp at h
    · exact h

/-- The loop of `board_get_mfguid_formated` is eight loop bodies. -/
theorem mfguid_formated_eq_steps (e : ByteOrder) (hw : Reg → Nat) (format_buffer : Buffer)
    (size : Int) :
    board_get_mfguid_formated e hw format_buffer size =
      steps (board_get_mfguid e hw Buffer.fresh).1 size 8 0
        { format_buffer := format_buffer, offset := 0, bounds := [] } := rfl

/-- Full description of `board_get_mfguid_formated` for a size of at least 17. -/
theorem mfguid_formated_spec (e : ByteOrder) (hw : Reg → Nat) (format_buffer : Buffer)
    (size : Int) (h17 : 17 ≤ size) (hmax : size < 2 ^ 31) :
    (board_get_mfguid_formated e hw format_buffer size).offset = 16 ∧
    (∀ j, (board_get_mfguid_formated e hw format_buffer size).format_buffer j =
      if j < 16 then some (hexNibble (board_get_mfguid e hw Buffer.fresh).1 0 j)
      else if j = 16 then some 0
      else format_buffer j) := by
  rw [mfguid_formated_eq_steps]
  obtain ⟨ho, hbuf, _, _⟩ := steps_spec (board_get_mfguid e hw Buffer.fresh).1 size hmax 8 0 0
    { format_buffer := format_buffer, offset := 0, bounds := [] } rfl (by push_cast; omega)
  refine ⟨ho.trans (by norm_num), ?_⟩
  intro j
  rw [hbuf j]
  by_cases h1 : j < 16
  · rw [if_pos (by omega), if_pos h1]
    simp
  · rw [if_neg (by omega), if_neg h1]
    by_cases h2 : j = 16
    · rw [if_pos (by omega), if_pos h2]
    · rw [if_neg (by omega), if_neg h2]

/-- Reading back a string whose characters and terminator are known. -/
theorem cstr_eq (b : Buffer) :
    ∀ (cs : List Nat) (n i : Nat), cs.length < n →
      (∀ k, k < cs.length → b (i + k) = some (cs.getD k 0) ∧ cs.getD k 0 ≠ 0) →
      b (i + cs.length) = some 0 → b.cstr n i = cs := by
  intro cs
  induction cs with
  | nil =>
    intro n i hn _ hz
    obtain ⟨m, rfl⟩ : ∃ m, n = m + 1 := ⟨n - 1, by simp at hn; omega⟩
    simp only [List.length_nil, Nat.add_zero] at hz
    simp [Buffer.cstr, hz]
  | cons c cs ih =>
    intro n i hn hc hz
    simp only [List.length_cons] at hn hz hc
    obtain ⟨m, rfl⟩ : ∃ m, n = m + 1 := ⟨n - 1, by omega⟩
    have h0 := hc 0 (by omega)
    simp only [Nat.add_zero, List.getD_cons_zero] at h0
    have hrest := ih m (i + 1) (by omega)
      (by
        intro k hk
        have := hc (k + 1) (by omega)
        simp only [List.getD_cons_succ] at this
        rw [show i + 1 + k = i + (k + 1) by omega]
        exact this)
      (by rw [show i + 1 + cs.length = i + (cs.length + 1) by omega]; exact hz)
    simp [Buffer.cstr, h0.1, h0.2, hrest]

theorem hexDecode_byte (b : Nat) (hb : b < 256) (rest : List Nat) :
    hexDecode (hexChar (b / 16) :: hexChar (b % 16) :: rest) =
      (hexDecode rest).map (fun r => b :: r) := by
  have h1 := hexVal_hexChar (b / 16) (by omega)
  have h2 := hexVal_hexChar (b % 16) (by omega)
  have h3 : 16 * (b / 16) + b % 16 = b := by omega
  rw [hexDecode, h1, h2]
  cases hexDecode rest <;> simp [h3]

/-! ## Properties of the board identity functions -/

/-- C1: for every content of the two registers (`W0` in `IMXRT_OCOTP_CFG1`,
`W1` in `IMXRT_OCOTP_CFG0`), `board_get_uuid` stores exactly the 8 bytes
`uuid_bytes[0..7]`, and `uuid_bytes[i]` is byte `reorder[i]` of the 8-byte
memory image of the word array `[W0, W1]` filled by `board_get_uuid32`,
with `reorder = {3, 2, 1, 0, 7, 6, 5, 4}`. -/
theorem C1_board_get_uuid_reorder (e : ByteOrder) (hw : Reg → Nat) (mem : Buffer) (p : Nat) :
    board_get_uuid32 hw = [hw Reg.IMXRT_OCOTP_CFG1 % 2 ^ 32, hw Reg.IMXRT_OCOTP_CFG0 % 2 ^ 32] ∧
    (unionBytes e (board_get_uuid32 hw)).length = 8 ∧
    (∀ i, i < 8 → board_get_uuid e hw mem p (p + i) =
      some ((unionBytes e (board_get_uuid32 hw)).getD ([3, 2, 1, 0, 7, 6, 5, 4].getD i 0) 0)) ∧
    (∀ j, j < p ∨ p + 8 ≤ j → board_get_uuid e hw mem p j = mem j) := by
  refine ⟨rfl, ?_, ?_, ?_⟩
  · cases e <;> simp [unionBytes, board_get_uuid32, wordImage]
  · intro i hi
    rw [board_get_uuid_apply, if_pos (by omega)]
    simp [CPU_UUID_BYTE_FORMAT_ORDER]
  · intro j hj
    rw [board_get_uuid_apply, if_neg (by omega)]

/-- C2: for every content of the registers and every 16-bit architecture ID
`A`, `board_get_px4_guid` returns 18 and fills exactly 18 bytes: byte 0 is
`A >> 8`, byte 1 is `A & 0xff`, bytes 2..9 are zero and bytes 10..17 are the
8 bytes `board_get_uuid` produces (into any buffer, at any base) for the
same registers. -/
theorem C2_board_get_px4_guid_layout (e : ByteOrder) (hw : Reg → Nat) (A : Nat)
    (mem mem2 : Buffer) (p : Nat) (hA : A < 2 ^ 16) :
    (board_get_px4_guid e hw A mem).2 = 18 ∧
    (board_get_px4_guid e hw A mem).1 0 = some (A >>> 8) ∧
    (board_get_px4_guid e hw A mem).1 1 = some (A &&& 0xff) ∧
    (∀ j, 2 ≤ j → j < 10 → (board_get_px4_guid e hw A mem).1 j = some 0) ∧
    (∀ i, i < 8 →
      (board_get_px4_guid e hw A mem).1 (10 + i) = board_get_uuid e hw mem2 p (p + i)) ∧
    (∀ j, 18 ≤ j → (board_get_px4_guid e hw A mem).1 j = mem j) := by
  have hs : soc_arch_id A = A := by
    simp only [soc_arch_id]; omega
  refine ⟨rfl, ?_, ?_, ?_, ?_, ?_⟩
  · rw [board_get_px4_guid_apply, if_pos rfl, hs, Nat.shiftRight_eq_div_pow]
    congr 1; omega
  · rw [board_get_px4_guid_apply, if_neg (by omega), if_pos rfl, hs, and_0xff]
  · intro j h2 h10
    rw [board_get_px4_guid_apply, if_neg (by omega), if_neg (by omega), if_pos h10]
  · intro i hi
    rw [board_get_px4_guid_apply, if_neg (by omega), if_neg (by omega), if_neg (by omega),
      if_pos (by omega), board_get_uuid_apply, board_get_uuid_apply, if_pos (by omega),
      if_pos (by omega)]
    congr 3; omega
  · intro j hj
    rw [board_get_px4_guid_apply, if_neg (by omega), if_neg (by omega), if_neg (by omega),
      if_neg (by omega)]

/-- Witness of C2 at the architecture ID `0x0102`, registers holding zero. -/
theorem C2_board_get_px4_guid_layout_witness :
    (board_get_px4_guid ByteOrder.little (fun _ => 0) 0x0102 Buffer.fresh).2 = 18 ∧
    (board_get_px4_guid ByteOrder.little (fun _ => 0) 0x0102 Buffer.fresh).1 0
      = some (0x0102 >>> 8) ∧
    (board_get_px4_guid ByteOrder.little (fun _ => 0) 0x0102 Buffer.fresh).1 1
      = some (0x0102 &&& 0xff) :=
  have h := C2_board_get_px4_guid_layout ByteOrder.little (fun _ => 0) 0x0102 Buffer.fresh
    Buffer.fresh 0 (by decide)
  ⟨h.1, h.2.1, h.2.2.1⟩

/-- C3: for every content of the registers, `board_get_mfguid` returns the
constant 8 and leaves in `mfgid` exactly what `board_get_uuid` leaves in
`uuid_bytes`: the same 8 bytes in the same order, whatever buffer
`board_get_uuid` is handed, and nothing beyond them. -/
theorem C3_board_get_mfguid_eq_uuid (e : ByteOrder) (hw : Reg → Nat) (mfgid mem : Buffer)
    (p : Nat) :
    (board_get_mfguid e hw mfgid).2 = 8 ∧
    (board_get_mfguid e hw mfgid).2 = (PX4_CPU_MFGUID_BYTE_LENGTH : Int) ∧
    (board_get_mfguid e hw mfgid).1 = board_get_uuid e hw mfgid 0 ∧
    (∀ i, i < 8 → (board_get_mfguid e hw mfgid).1 i = board_get_uuid e hw mem p (p + i)) ∧
    (∀ j, 8 ≤ j → (board_get_mfguid e hw mfgid).1 j = mfgid j) := by
  refine ⟨rfl, rfl, rfl, ?_, ?_⟩
  · intro i hi
    show board_get_uuid e hw mfgid 0 i = _
    rw [board_get_uuid_apply, board_get_uuid_apply, if_pos (by omega), if_pos (by omega)]
    congr 3; omega
  · intro j hj
    show board_get_uuid e hw mfgid 0 j = _
    rw [board_get_uuid_apply, if_neg (by omega)]

/-- C4: for every content of the registers and every size with
`3 ≤ size ≤ 38`, with `k` half of the size made odd (`1 ≤ k ≤ 18`),
`board_get_px4_guid_formated` returns `2 * k` and stores exactly `2 * k`
lowercase hex characters followed by a NUL: characters `2 * m` and
`2 * m + 1` are the high and low hex digit of GUID byte `18 - k + m`, so
the text encodes the last `k` bytes of the GUID in increasing index order. -/
theorem C4_px4_guid_formated_keeps_tail (e : ByteOrder) (hw : Reg → Nat) (arch : Nat)
    (format_buffer mem : Buffer) (size : Int) (h3 : 3 ≤ size) (h38 : size ≤ 38) :
    1 ≤ keptBytes size ∧ keptBytes size ≤ 18 ∧
    ∃ st, board_get_px4_guid_formated e hw arch format_buffer size = some st ∧
      st.offset = 2 * (keptBytes size : Int) ∧
      (∀ m, m < keptBytes size →
        st.format_buffer (2 * m) = some (hexChar
          ((board_get_px4_guid e hw arch mem).1.read8 (18 - keptBytes size + m) / 16)) ∧
        st.format_buffer (2 * m + 1) = some (hexChar
          ((board_get_px4_guid e hw arch mem).1.read8 (18 - keptBytes size + m) % 16))) ∧
      (∀ j, j < 2 * keptBytes size → ∃ c, st.format_buffer j = some c ∧ isLowerHex c) ∧
      st.format_buffer (2 * keptBytes size) = some 0 ∧
      (∀ j, 2 * keptBytes size < j → st.format_buffer j = format_buffer j) := by
  have hk1 : 1 ≤ keptBytes size := by unfold keptBytes; split <;> omega
  have hk18 : keptBytes size ≤ 18 := by unfold keptBytes; split <;> omega
  obtain ⟨st, hst, ho, hbuf, _, _⟩ := px4_guid_formated_spec e hw arch format_buffer size h3 h38
  refine ⟨hk1, hk18, st, hst, ho, ?_, ?_, ?_, ?_⟩
  · intro m hm
    rw [hbuf (2 * m), hbuf (2 * m + 1), if_pos (by omega), if_pos (by omega), hexNibble_even,
      hexNibble_odd, px4_guid_read8_eq e hw arch mem Buffer.fresh _ (by omega)]
    exact ⟨rfl, rfl⟩
  · intro j hj
    rw [hbuf j, if_pos hj]
    exact ⟨_, rfl, hexNibble_isLowerHex _ _ _⟩
  · rw [hbuf, if_neg (by omega), if_pos rfl]
  · intro j hj
    rw [hbuf, if_neg (by omega), if_neg (by omega)]

/-- Witness of C4 at `size = 5`: the text is the hex of GUID bytes 16 and 17
and the value returned is 4. -/
theorem C4_px4_guid_formated_keeps_tail_witness :
    ∃ st, board_get_px4_guid_formated ByteOrder.little exampleOcotp 0x0102 Buffer.fresh 5
        = some st ∧
      st.offset = 4 ∧
      st.format_buffer 0 = some (hexChar
        ((board_get_px4_guid ByteOrder.little exampleOcotp 0x0102 Buffer.fresh).1.read8 16 / 16)) ∧
      st.format_buffer 1 = some (hexChar
        ((board_get_px4_guid ByteOrder.little exampleOcotp 0x0102 Buffer.fresh).1.read8 16 % 16)) ∧
      st.format_buffer 2 = some (hexChar
        ((board_get_px4_guid ByteOrder.little exampleOcotp 0x0102 Buffer.fresh).1.read8 17 / 16)) ∧
      st.format_buffer 3 = some (hexChar
        ((board_get_px4_guid ByteOrder.little exampleOcotp 0x0102 Buffer.fresh).1.read8 17 % 16)) ∧
      st.format_buffer 4 = some 0 := by
  have hk : keptBytes 5 = 2 := by decide
  obtain ⟨_, _, st, hst, ho, hb, _, hz, _⟩ :=
    C4_px4_guid_formated_keeps_tail ByteOrder.little exampleOcotp 0x0102 Buffer.fresh
      Buffer.fresh 5 (by decide) (by decide)
  rw [hk] at ho hb hz
  exact ⟨st, hst, ho, (hb 0 (by decide)).1, (hb 0 (by decide)).2, (hb 1 (by decide)).1,
    (hb 1 (by decide)).2, hz⟩

/-- C5: for every content of the registers and every even size of at least
2, `board_get_px4_guid_formated` called with `size` gives the same result
as called with `size - 1`: the same value returned and the same buffer. -/
theorem C5_px4_guid_formated_even_size (e : ByteOrder) (hw : Reg → Nat) (arch : Nat)
    (format_buffer : Buffer) (size : Int) (heven : size % 2 = 0) (_h2 : 2 ≤ size) :
    board_get_px4_guid_formated e hw arch format_buffer size =
      board_get_px4_guid_formated e hw arch format_buffer (size - 1) := by
  have h : (if size % 2 ≠ 0 then size else size - 1) = size - 1 := by
    rw [if_neg (by omega)]
  have h1 : (if (size - 1) % 2 ≠ 0 then size - 1 else size - 1 - 1) = size - 1 := by
    rw [if_pos (by omega)]
  simp only [board_get_px4_guid_formated, h, h1]

/-- Witness of C5 at `size = 6`. -/
theorem C5_px4_guid_formated_even_size_witness :
    board_get_px4_guid_formated ByteOrder.little exampleOcotp 0x0102 Buffer.fresh 6 =
      board_get_px4_guid_formated ByteOrder.little exampleOcotp 0x0102 Buffer.fresh (6 - 1) :=
  C5_px4_guid_formated_even_size ByteOrder.little exampleOcotp 0x0102 Buffer.fresh 6
    (by decide) (by decide)

/-- C6: for every content of the registers and every `int` size of at least
17, `board_get_mfguid_formated` returns 16 and stores exactly 16 characters
followed by a NUL; every character is in `[0-9a-f]`, and characters `2 * i`
and `2 * i + 1` are the high and low nibble of manufacturer-GUID byte `i`. -/
theorem C6_mfguid_formated_full (e : ByteOrder) (hw : Reg → Nat) (format_buffer mem : Buffer)
    (size : Int) (h17 : 17 ≤ size) (hmax : size < 2 ^ 31) :
    (board_get_mfguid_formated e hw format_buffer size).offset = 16 ∧
    (∀ i, i < 8 →
      (board_get_mfguid_formated e hw format_buffer size).format_buffer (2 * i) =
        some (hexChar ((board_get_mfguid e hw mem).1.read8 i / 16)) ∧
      (board_get_mfguid_formated e hw format_buffer size).format_buffer (2 * i + 1) =
        some (hexChar ((board_get_mfguid e hw mem).1.read8 i % 16))) ∧
    (∀ j, j < 16 → ∃ c,
      (board_get_mfguid_formated e hw format_buffer size).format_buffer j = some c ∧
        isLowerHex c) ∧
    (board_get_mfguid_formated e hw format_buffer size).format_buffer 16 = some 0 ∧
    (∀ j, 16 < j →
      (board_get_mfguid_formated e hw format_buffer size).format_buffer j = format_buffer j) := by
  obtain ⟨ho, hbuf⟩ := mfguid_formated_spec e hw format_buffer size h17 hmax
  refine ⟨ho, ?_, ?_, ?_, ?_⟩
  · intro i hi
    rw [hbuf (2 * i), hbuf (2 * i + 1), if_pos (by omega), if_pos (by omega), hexNibble_even,
      hexNibble_odd, mfguid_read8_eq e hw mem Buffer.fresh _ hi, Nat.zero_add]
    exact ⟨rfl, rfl⟩
  · intro j hj
    rw [hbuf j, if_pos hj]
    exact ⟨_, rfl, hexNibble_isLowerHex _ _ _⟩
  · rw [hbuf, if_neg (by omega), if_pos rfl]
  · intro j hj
    rw [hbuf, if_neg (by omega), if_neg (by omega)]

/-- Witness of C6 at `size = 17`. -/
theorem C6_mfguid_formated_full_witness :
    (board_get_mfguid_formated ByteOrder.little exampleOcotp Buffer.fresh 17).offset = 16 ∧
    (board_get_mfguid_formated ByteOrder.little exampleOcotp Buffer.fresh 17).format_buffer 16
      = some 0 :=
  have h := C6_mfguid_formated_full ByteOrder.little exampleOcotp Buffer.fresh Buffer.fresh 17
    (by decide) (by decide)
  ⟨h.1, h.2.2.2.1⟩

/-- C7: for every content of the registers and every `int` size of at least
17, hex-decoding (two characters per byte) the NUL-terminated string that
`board_get_mfguid_formated` leaves in the buffer gives exactly the 8 bytes
`board_get_mfguid` produces for the same registers. -/
theorem C7_mfguid_formated_round_trip (e : ByteOrder) (hw : Reg → Nat)
    (format_buffer mem : Buffer) (size : Int) (h17 : 17 ≤ size) (hmax : size < 2 ^ 31) :
    hexDecode ((board_get_mfguid_formated e hw format_buffer size).format_buffer.cstr
        size.toNat 0) =
      some (Buffer.bytes (board_get_mfguid e hw mem).1 0 8) := by
  obtain ⟨_, hbuf⟩ := mfguid_formated_spec e hw format_buffer size h17 hmax
  have hcs := cstr_eq (board_get_mfguid_formated e hw format_buffer size).format_buffer
    ((List.range 16).map (hexNibble (board_get_mfguid e hw Buffer.fresh).1 0)) size.toNat 0
    (by simp only [List.length_map, List.length_range]; omega)
    (by
      intro k hk
      simp only [List.length_map, List.length_range] at hk
      rw [hbuf, if_pos (by omega)]
      have hget : ((List.range 16).map (hexNibble (board_get_mfguid e hw Buffer.fresh).1 0)).getD
          k 0 = hexNibble (board_get_mfguid e hw Buffer.fresh).1 0 k := by
        interval_cases k <;> rfl
      rw [hget, Nat.zero_add]
      exact ⟨rfl, hexChar_ne_zero _⟩)
    (by
      simp only [List.length_map, List.length_range]
      rw [hbuf, if_neg (by omega), if_pos (by omega)])
  rw [hcs]
  have hb : ∀ i, i < 8 → (board_get_mfguid e hw mem).1.read8 i =
      (board_get_mfguid e hw Buffer.fresh).1.read8 i :=
    fun i hi => mfguid_read8_eq e hw mem Buffer.fresh i hi
  have hl : (List.range 16).map (hexNibble (board_get_mfguid e hw Buffer.fresh).1 0) =
      [hexNibble (board_get_mfguid e hw Buffer.fresh).1 0 (2 * 0),
       hexNibble (board_get_mfguid e hw Buffer.fresh).1 0 (2 * 0 + 1),
       hexNibble (board_get_mfguid e hw Buffer.fresh).1 0 (2 * 1),
       hexNibble (board_get_mfguid e hw Buffer.fresh).1 0 (2 * 1 + 1),
       hexNibble (board_get_mfguid e hw Buffer.fresh).1 0 (2 * 2),
       hexNibble (board_get_mfguid e hw Buffer.fresh).1 0 (2 * 2 + 1),
       hexNibble (board_get_mfguid e hw Buffer.fresh).1 0 (2 * 3),
       hexNibble (board_get_mfguid e hw Buffer.fresh).1 0 (2 * 3 + 1),
       hexNibble (board_get_mfguid e hw Buffer.fresh).1 0 (2 * 4),
       hexNibble (board_get_mfguid e hw Buffer.fresh).1 0 (2 * 4 + 1),
       hexNibble (board_get_mfguid e hw Buffer.fresh).1 0 (2 * 5),
       hexNibble (board_get_mfguid e hw Buffer.fresh).1 0 (2 * 5 + 1),
       hexNibble (board_get_mfguid e hw Buffer.fresh).1 0 (2 * 6),
       hexNibble (board_get_mfguid e hw Buffer.fresh).1 0 (2 * 6 + 1),
       hexNibble (board_get_mfguid e hw Buffer.fresh).1 0 (2 * 7),
       hexNibble (board_get_mfguid e hw Buffer.fresh).1 0 (2 * 7 + 1)] := rfl
  have hr : Buffer.bytes (board_get_mfguid e hw mem).1 0 8 =
      [(board_get_mfguid e hw Buffer.fresh).1.read8 (0 + 0),
       (board_get_mfguid e hw Buffer.fresh).1.read8 (0 + 1),
       (board_get_mfguid e hw Buffer.fresh).1.read8 (0 + 2),
       (board_get_mfguid e hw Buffer.fresh).1.read8 (0 + 3),
       (board_get_mfguid e hw Buffer.fresh).1.read8 (0 + 4),
       (board_get_mfguid e hw Buffer.fresh).1.read8 (0 + 5),
       (board_get_mfguid e hw Buffer.fresh).1.read8 (0 + 6),
       (board_get_mfguid e hw Buffer.fresh).1.read8 (0 + 7)] := by
    rw [← hb 0 (by omega), ← hb 1 (by omega), ← hb 2 (by omega), ← hb 3 (by omega),
      ← hb 4 (by omega), ← hb 5 (by omega), ← hb 6 (by omega), ← hb 7 (by omega)]
    rfl
  rw [hl, hr]
  simp only [hexNibble_even, hexNibble_odd]
  rw [hexDecode_byte _ (read8_lt _ _), hexDecode_byte _ (read8_lt _ _),
    hexDecode_byte _ (read8_lt _ _), hexDecode_byte _ (read8_lt _ _),
    hexDecode_byte _ (read8_lt _ _), hexDecode_byte _ (read8_lt _ _),
    hexDecode_byte _ (read8_lt _ _), hexDecode_byte _ (read8_lt _ _)]
  rfl

/-- Witness of C7 at `size = 17`. -/
theorem C7_mfguid_formated_round_trip_witness :
    hexDecode ((board_get_mfguid_formated ByteOrder.little exampleOcotp Buffer.fresh
        17).format_buffer.cstr (17 : Int).toNat 0) =
      some (Buffer.bytes (board_get_mfguid ByteOrder.little exampleOcotp Buffer.fresh).1 0 8) :=
  C7_mfguid_formated_round_trip ByteOrder.little exampleOcotp Buffer.fresh Buffer.fresh 17
    (by decide) (by decide)

/-- C8, evaluated at `size = 9` with the registers of `exampleOcotp`: the
bounds handed to `snprintf` are 9, 7, 5, 3, 1 and then, `size - offset`
having become negative, `SIZE_MAX`, `SIZE_MAX - 2`, `SIZE_MAX - 4`; the last
three calls store at the indices 10..16, all beyond the 9 bytes of the
buffer. -/
theorem C8_mfguid_formated_writes_past_size :
    (board_get_mfguid_formated ByteOrder.little exampleOcotp Buffer.fresh 9).bounds =
      [9, 7, 5, 3, 1, 4294967295, 4294967293, 4294967291] ∧
    (board_get_mfguid_formated ByteOrder.little exampleOcotp Buffer.fresh 9).format_buffer 9
      = none ∧
    (List.range 7).map (fun k =>
      (board_get_mfguid_formated ByteOrder.little exampleOcotp Buffer.fresh 9).format_buffer
        (10 + k)) =
      [some 98, some 99, some 100, some 101, some 102, some 48, some 0] := by
  decide

/-- C9, evaluated at `size = 16` with the registers of `exampleOcotp`: the
value returned is 16, while the string left in the buffer has 15
characters (the last digit is cut off for the NUL stored at index 15). -/
theorem C9_mfguid_formated_return_not_length :
    (board_get_mfguid_formated ByteOrder.little exampleOcotp Buffer.fresh 16).offset = 16 ∧
    ((board_get_mfguid_formated ByteOrder.little exampleOcotp Buffer.fresh
        16).format_buffer.cstr 16 0).length = 15 ∧
    (board_get_mfguid_formated ByteOrder.little exampleOcotp Buffer.fresh 16).format_buffer 15
      = some 0 ∧
    (board_get_mfguid_formated ByteOrder.little exampleOcotp Buffer.fresh 16).format_buffer 16
      = none := by
  decide

/-- C10: for every content of the registers and every `int` size other than
`INT_MIN`, `board_get_px4_guid_formated` returns, never stores at an index
`≥ size`, and hands every `snprintf` call a bound of at least 3, so that
each call stores both its digits; the value returned is the number of
characters stored: it is twice the number of calls, the buffer holds that
many hex digits from index 0, then (when any was stored) the NUL, and
nothing else was stored. -/
theorem C10_px4_guid_formated_in_bounds (e : ByteOrder) (hw : Reg → Nat) (arch : Nat)
    (format_buffer : Buffer) (size : Int) (hmin : -2 ^ 31 < size) (hmax : size < 2 ^ 31) :
    ∃ st, board_get_px4_guid_formated e hw arch format_buffer size = some st ∧
      (∀ j : Nat, size ≤ (j : Int) → st.format_buffer j = format_buffer j) ∧
      (∀ c ∈ st.bounds, 3 ≤ c) ∧
      st.offset = 2 * (st.bounds.length : Int) ∧
      (∀ j : Nat, (j : Int) < st.offset → ∃ c, st.format_buffer j = some c ∧ isLowerHex c) ∧
      (0 < st.offset → st.format_buffer st.offset.toNat = some 0) ∧
      (∀ j : Nat, st.offset < (j : Int) → st.format_buffer j = format_buffer j) ∧
      (st.offset = 0 → ∀ j, st.format_buffer j = format_buffer j) := by
  by_cases hr : 3 ≤ size ∧ size ≤ 38
  · obtain ⟨st, hst, ho, hbuf, hlen, hbd⟩ :=
      px4_guid_formated_spec e hw arch format_buffer size hr.1 hr.2
    have hk : 2 * (keptBytes size : Int) + 1 ≤ size := by
      unfold keptBytes; split <;> omega
    have hk1 : 1 ≤ keptBytes size := by unfold keptBytes; split <;> omega
    refine ⟨st, hst, ?_, hbd, by rw [ho, hlen], ?_, ?_, ?_, ?_⟩
    · intro j hj
      rw [hbuf, if_neg (by omega), if_neg (by omega)]
    · intro j hj
      rw [hbuf, if_pos (by omega)]
      exact ⟨_, rfl, hexNibble_isLowerHex _ _ _⟩
    · intro _
      rw [hbuf, if_neg (by omega), if_pos (by omega)]
    · intro j hj
      rw [hbuf, if_neg (by omega), if_neg (by omega)]
    · intro h0
      omega
  · refine ⟨_, px4_guid_formated_out_of_range e hw arch format_buffer size hmin hmax (by omega),
      ?_, ?_, ?_, ?_, ?_, ?_, ?_⟩
    · intro j _; rfl
    · intro c hc; simp at hc
    · simp
    · intro j hj; simp at hj; omega
    · intro h; simp at h
    · intro j _; rfl
    · intro _ j; rfl

/-- Witness of C10 at `size = 5`. -/
theorem C10_px4_guid_formated_in_bounds_witness :
    ∃ st, board_get_px4_guid_formated ByteOrder.little exampleOcotp 0x0102 Buffer.fresh 5
        = some st ∧
      (∀ j : Nat, (5 : Int) ≤ (j : Int) → st.format_buffer j = Buffer.fresh j) ∧
      (∀ c ∈ st.bounds, 3 ≤ c) ∧
      st.offset = 2 * (st.bounds.length : Int) := by
  obtain ⟨st, h1, h2, h3, h4, _⟩ :=
    C10_px4_guid_formated_in_bounds ByteOrder.little exampleOcotp 0x0102 Buffer.fresh 5
      (by decide) (by decide)
  exact ⟨st, h1, h2, h3, h4⟩

/-! ## Lemmas on formatting the raw words -/

theorem fmt_08x_eq_hex8 (w : Nat) : fmt_0x 8 w = hex8 (w % 2 ^ 32) := by
  have hv : w % 2 ^ 32 < 2 ^ 32 := Nat.mod_lt _ (by norm_num)
  have h48 : (48 : Nat) = hexChar 0 := rfl
  simp only [fmt_0x]
  generalize w % 2 ^ 32 = v at hv
  simp only [hexDigitsRev, hex8]
  split_ifs
  all_goals first
    | omega
    | (simp only [List.reverse_cons, List.reverse_nil, List.nil_append, List.cons_append,
        List.length_cons, List.length_nil, List.length_append, Nat.reduceAdd, Nat.reduceSub,
        List.replicate, List.append_assoc, List.cons.injEq, and_true, h48]
       repeat' constructor
       all_goals (congr 1; omega))

theorem hex8_length (w : Nat) : (hex8 w).length = 8 := rfl

theorem store_store (b : Buffer) (i v y : Nat) : (b.store i v).store i y = b.store i y := by
  funext j
  simp only [Buffer.store]
  split <;> rfl

theorem storeAll_append (xs ys : List Nat) (b : Buffer) (off : Nat) :
    b.storeAll off (xs ++ ys) = (b.storeAll off xs).storeAll (off + xs.length) ys := by
  induction xs generalizing b off with
  | nil => rfl
  | cons x xs ih =>
    have h := ih (b.store off x) (off + 1)
    have e : off + 1 + xs.length = off + (x :: xs).length := by
      simp only [List.length_cons]; omega
    rw [e] at h
    exact h

/-- Storing a text over the terminator of the text before it. -/
theorem storeAll_over_nul (xs : List Nat) (y : Nat) (ys : List Nat) (b : Buffer) (off : Nat) :
    (b.storeAll off (xs ++ [0])).storeAll (off + xs.length) (y :: ys) =
      b.storeAll off (xs ++ y :: ys) := by
  rw [storeAll_append, storeAll_append]
  simp only [Buffer.storeAll, store_store]

theorem snprintf_full (buf : Buffer) (off n : Nat) (text : List Nat) (h : text.length < n) :
    snprintf buf off n text = (buf.storeAll off (text ++ [0]), (text.length : Int)) := by
  have h0 : n ≠ 0 := by omega
  simp only [snprintf, if_neg h0, List.take_of_length_le (show text.length ≤ n - 1 by omega)]

theorem strlen_at_nul (b : Buffer) (i : Nat) (h : b i = some 0) :
    b.strlen (2 ^ 32) i = some 0 := by
  have e : (2 : Nat) ^ 32 = 4294967295 + 1 := by norm_num
  rw [e, Buffer.strlen, h]
  simp

theorem toInt_of_lt (n : Nat) (h : n < 2 ^ 31) : toInt n = n := by
  unfold toInt
  have h1 : n % 2 ^ 32 = n := by omega
  rw [h1, if_pos h]

theorem fmt_08x_getreg32 (hw : Reg → Nat) (r : Reg) :
    fmt_0x 8 (getreg32 hw r) = hex8 (getreg32 hw r) := by
  rw [fmt_08x_eq_hex8]
  congr 1
  unfold getreg32
  omega

/-- The loop of `board_get_uuid32_formated` is two loop bodies. -/
theorem uuid32_formated_unfold (hw : Reg → Nat) (buf : Buffer) (size : Int)
    (format : Nat → List Nat) (sep : Option (List Nat)) :
    board_get_uuid32_formated hw buf size format sep =
      (uuid32_loop_body size format sep
          (match sep with
            | some s => toInt s.length
            | none => 0) (board_get_uuid32 hw)
        (uuid32_loop_body size format sep
          (match sep with
            | some s => toInt s.length
            | none => 0) (board_get_uuid32 hw)
          { format_buffer := buf, offset := 0, determinate := true } 0) 1, 0) := rfl

/-- The first loop body when the first word fits. -/
theorem uuid32_body_first (hw : Reg → Nat) (buf : Buffer) (size : Int)
    (sep : Option (List Nat)) (L : Int) (h10 : 10 ≤ size) (hmax : size < 2 ^ 31) :
    uuid32_loop_body size (fmt_0x 8) sep L (board_get_uuid32 hw)
        { format_buffer := buf, offset := 0, determinate := true } 0 =
      if L ≠ 0 then
        { format_buffer := (buf.storeAll 0 (hex8 (getreg32 hw Reg.IMXRT_OCOTP_CFG1) ++ [0])).storeAll
            8 (sep.getD [] ++ [0]),
          offset := 8 + L, determinate := true }
      else
        { format_buffer := buf.storeAll 0 (hex8 (getreg32 hw Reg.IMXRT_OCOTP_CFG1) ++ [0]),
          offset := 8, determinate := true } := by
  have n0 : toUnsigned (size - ((0 * 2 * sizeof_uint32_t + 1 : Nat) : Int)) = (size - 1).toNat := by
    simp only [toUnsigned, sizeof_uint32_t]; omega
  have s0 : snprintf buf 0 (size - 1).toNat (hex8 (getreg32 hw Reg.IMXRT_OCOTP_CFG1)) =
      (buf.storeAll 0 (hex8 (getreg32 hw Reg.IMXRT_OCOTP_CFG1) ++ [0]), 8) := by
    rw [snprintf_full _ _ _ _ (by rw [hex8_length]; omega), hex8_length]; rfl
  have hnul : (buf.storeAll 0 (hex8 (getreg32 hw Reg.IMXRT_OCOTP_CFG1) ++ [0])) 8 = some 0 := by
    rw [storeAll_apply, if_pos (by simp [hex8_length])]
    rfl
  have hcat : strcat (buf.storeAll 0 (hex8 (getreg32 hw Reg.IMXRT_OCOTP_CFG1) ++ [0])) 8
      (sep.getD []) = some ((buf.storeAll 0 (hex8 (getreg32 hw Reg.IMXRT_OCOTP_CFG1) ++
        [0])).storeAll 8 (sep.getD [] ++ [0])) := by
    rw [strcat, strlen_at_nul _ _ hnul]
    rfl
  have o8 : ((0 : Int) + 8).toNat = 8 := rfl
  simp only [uuid32_loop_body, n0, board_get_uuid32, List.getD_cons_zero, fmt_08x_getreg32,
    Int.toNat_zero, s0, o8, hcat, PX4_CPU_UUID_WORD32_LENGTH]
  by_cases hL : L ≠ 0
  · rw [if_pos ⟨hL, by omega⟩, if_pos hL]
    simp
  · rw [if_neg (fun h => hL h.1), if_neg hL]
    simp

/-- The second loop body when the second word fits its bound. -/
theorem uuid32_body_second (hw : Reg → Nat) (size : Int) (sep : Option (List Nat)) (L : Int)
    (st : Uuid32State) (o : Nat) (ho : st.offset = o) (h18 : 18 ≤ size) (hmax : size < 2 ^ 31) :
    uuid32_loop_body size (fmt_0x 8) sep L (board_get_uuid32 hw) st 1 =
      { format_buffer := st.format_buffer.storeAll o (hex8 (getreg32 hw Reg.IMXRT_OCOTP_CFG0) ++ [0]),
        offset := (o : Int) + 8, determinate := st.determinate } := by
  have n1 : toUnsigned (size - ((1 * 2 * sizeof_uint32_t + 1 : Nat) : Int)) = (size - 9).toNat := by
    simp only [toUnsigned, sizeof_uint32_t]; omega
  have s1 : snprintf st.format_buffer o (size - 9).toNat (hex8 (getreg32 hw Reg.IMXRT_OCOTP_CFG0)) =
      (st.format_buffer.storeAll o (hex8 (getreg32 hw Reg.IMXRT_OCOTP_CFG0) ++ [0]), 8) := by
    rw [snprintf_full _ _ _ _ (by rw [hex8_length]; omega), hex8_length]; rfl
  have hc : ¬ (L ≠ 0 ∧ 1 < PX4_CPU_UUID_WORD32_LENGTH - 1) := by
    simp [PX4_CPU_UUID_WORD32_LENGTH]
  simp only [uuid32_loop_body, n1, board_get_uuid32, List.getD_cons_zero, List.getD_cons_succ,
    fmt_08x_getreg32, ho, Int.toNat_ofNat, s1, if_neg hc]

/-- Storing a non-empty text right over the terminator of the text stored
at index 0. -/
theorem storeAll_then (b : Buffer) (xs ys : List Nat) (o : Nat) (ho : o = xs.length)
    (hys : ys ≠ []) :
    (b.storeAll 0 (xs ++ [0])).storeAll o ys = b.storeAll 0 (xs ++ ys) := by
  subst ho
  rcases ys with _ | ⟨y, ys⟩
  · exact absurd rfl hys
  · have h := storeAll_over_nul xs y ys b 0
    rw [Nat.zero_add] at h
    exact h

/-- With a size of at least 18 that also leaves room for the separator,
`board_get_uuid32_formated` stores both words in full: the buffer receives
the text `hex8 W0 ++ sep ++ hex8 W1` and its NUL from index 0 on, and
nothing else. -/
theorem uuid32_formated_full (hw : Reg → Nat) (buf : Buffer) (size : Int)
    (sep : Option (List Nat)) (h18 : 18 ≤ size)
    (hfit : 17 + ((sep.getD []).length : Int) ≤ size) (hmax : size < 2 ^ 31) :
    (board_get_uuid32_formated hw buf size (fmt_0x 8) sep).1.determinate = true ∧
    (board_get_uuid32_formated hw buf size (fmt_0x 8) sep).1.format_buffer =
      buf.storeAll 0 (hex8 (getreg32 hw Reg.IMXRT_OCOTP_CFG1) ++ sep.getD [] ++
        hex8 (getreg32 hw Reg.IMXRT_OCOTP_CFG0) ++ [0]) := by
  rw [uuid32_formated_unfold, uuid32_body_first hw buf size sep _ (by omega) hmax]
  have hne : ∀ w : Nat, hex8 w ++ [0] ≠ [] := fun w => by simp [hex8]
  rcases sep with _ | s
  · -- NULL separator
    simp only [Option.getD_none, List.append_nil]
    rw [if_neg (by simp), uuid32_body_second hw size none 0 _ 8 rfl h18 hmax]
    refine ⟨rfl, ?_⟩
    show (buf.storeAll 0 _).storeAll 8 _ = _
    rw [storeAll_then buf (hex8 (getreg32 hw Reg.IMXRT_OCOTP_CFG1)) _ 8 rfl (hne _),
      List.append_assoc]
  · simp only [Option.getD_some] at hfit ⊢
    have hlen : toInt s.length = s.length := toInt_of_lt _ (by omega)
    rw [hlen]
    rcases s with _ | ⟨c, cs⟩
    · -- empty separator
      rw [if_neg (by simp), uuid32_body_second hw size (some []) _ _ 8 rfl h18 hmax]
      refine ⟨rfl, ?_⟩
      show (buf.storeAll 0 _).storeAll 8 _ = _
      rw [storeAll_then buf (hex8 (getreg32 hw Reg.IMXRT_OCOTP_CFG1)) _ 8 rfl (hne _),
        List.append_nil, List.append_assoc]
    · rw [if_pos (by simp only [List.length_cons]; push_cast; omega),
        uuid32_body_second hw size (some (c :: cs)) _ _ (8 + (c :: cs).length)
          (by push_cast; rfl) h18 hmax]
      refine ⟨rfl, ?_⟩
      show ((buf.storeAll 0 _).storeAll 8 _).storeAll _ _ = _
      rw [storeAll_then buf (hex8 (getreg32 hw Reg.IMXRT_OCOTP_CFG1)) _ 8 rfl (by simp),
        ← List.append_assoc,
        storeAll_then buf (hex8 (getreg32 hw Reg.IMXRT_OCOTP_CFG1) ++ c :: cs) _
          (8 + (c :: cs).length) (by simp [hex8_length]) (hne _)]
      simp only [List.append_assoc]

/-! ## Properties of `board_get_uuid32_formated` -/

/-- C11, evaluated at `size = 17` with no separator, the format `"%08x"` and
the registers of `exampleOcotp`: the size leaves room for the 16 digits and
the NUL, yet the second `snprintf` call is handed the bound `17 - 9 = 8`
and stores only 7 digits: the buffer holds the 15 characters
`123456789abcdef`, not `hex8 W0 ++ hex8 W1`. -/
theorem C11_uuid32_formated_size_17_truncates :
    (17 : Int) ≥ 16 + 0 + 1 ∧
    toUnsigned ((17 : Int) - ((1 * 2 * sizeof_uint32_t + 1 : Nat) : Int)) = 8 ∧
    (board_get_uuid32_formated exampleOcotp Buffer.fresh 17 (fmt_0x 8) none).1.format_buffer.cstr
        17 0 =
      hex8 0x12345678 ++ (hex8 0x9abcdef0).take 7 ∧
    (board_get_uuid32_formated exampleOcotp Buffer.fresh 17 (fmt_0x 8) none).1.format_buffer.cstr
        17 0 ≠
      hex8 0x12345678 ++ hex8 0x9abcdef0 ∧
    (board_get_uuid32_formated exampleOcotp Buffer.fresh 17 (fmt_0x 8) none).1.format_buffer 15
      = some 0 ∧
    (board_get_uuid32_formated exampleOcotp Buffer.fresh 17 (fmt_0x 8) none).1.format_buffer 16
      = none := by
  decide

/-- C12, evaluated at `size = 4` with no separator, the format `"%08x"` and
the registers of `exampleOcotp`: the bound of the second `snprintf` call,
`4 - 9` in `size_t` arithmetic, is 4294967291, and the call stores the 8
digits of the second word and a NUL at the indices 8..16 of a 4-byte
buffer.  At `size = 0` already the first call has the bound `SIZE_MAX`,
and the two calls store the 16 digits and a NUL at the indices 0..16. -/
theorem C12_uuid32_formated_writes_past_size :
    toUnsigned ((4 : Int) - ((1 * 2 * sizeof_uint32_t + 1 : Nat) : Int)) = 4294967291 ∧
    (List.range 9).map (fun k =>
      (board_get_uuid32_formated exampleOcotp Buffer.fresh 4 (fmt_0x 8) none).1.format_buffer
        (8 + k)) =
      [some 57, some 97, some 98, some 99, some 100, some 101, some 102, some 48, some 0] ∧
    toUnsigned ((0 : Int) - ((0 * 2 * sizeof_uint32_t + 1 : Nat) : Int)) = 4294967295 ∧
    (List.range 17).map (fun k =>
      (board_get_uuid32_formated exampleOcotp Buffer.fresh 0 (fmt_0x 8) none).1.format_buffer k) =
      [some 49, some 50, some 51, some 52, some 53, some 54, some 55, some 56, some 57, some 97,
       some 98, some 99, some 100, some 101, some 102, some 48, some 0] := by
  decide

/-- C13: for every content of the registers, every buffer, size, format
and separator, `board_get_uuid32_formated` returns 0; so it does where the
output was truncated, as with `size = 10`, where the buffer receives the
first word only. -/
theorem C13_uuid32_formated_returns_zero (hw : Reg → Nat) (format_buffer : Buffer) (size : Int)
    (format : Nat → List Nat) (seperator : Option (List Nat)) :
    (board_get_uuid32_formated hw format_buffer size format seperator).2 = 0 ∧
    (board_get_uuid32_formated exampleOcotp Buffer.fresh 10 (fmt_0x 8) none).2 = 0 ∧
    (board_get_uuid32_formated exampleOcotp Buffer.fresh 10 (fmt_0x 8) none).1.format_buffer.cstr
        10 0 = hex8 0x12345678 :=
  ⟨rfl, rfl, by decide⟩

/-! ## Lemmas on byte order -/

theorem testBit_mask_ff0000 (j : Nat) :
    Nat.testBit 0x00ff0000 j = (decide (16 ≤ j) && decide (j - 16 < 8)) := by
  have e : (0x00ff0000 : Nat) = (2 ^ 8 - 1) <<< 16 := by decide
  rw [e, Nat.testBit_shiftLeft, Nat.testBit_two_pow_sub_one]

theorem testBit_mask_ff00 (j : Nat) :
    Nat.testBit 0x0000ff00 j = (decide (8 ≤ j) && decide (j - 8 < 8)) := by
  have e : (0x0000ff00 : Nat) = (2 ^ 8 - 1) <<< 8 := by decide
  rw [e, Nat.testBit_shiftLeft, Nat.testBit_two_pow_sub_one]

/-- Byte `k` of `SWAP_UINT32 x` is byte `3 - k` of the 32-bit value `x`. -/
theorem swap_byte (x k : Nat) (hk : k < 4) :
    (SWAP_UINT32 (x % 2 ^ 32) >>> (8 * k)) % 2 ^ 8 = ((x % 2 ^ 32) >>> (24 - 8 * k)) % 2 ^ 8 := by
  apply Nat.eq_of_testBit_eq
  intro i
  simp only [Nat.testBit_mod_two_pow, Nat.testBit_shiftRight, SWAP_UINT32, Nat.testBit_or,
    Nat.testBit_and, Nat.testBit_shiftLeft, testBit_mask_ff0000, testBit_mask_ff00]
  by_cases hi : i < 8
  · interval_cases k <;> interval_cases i <;> simp
  · simp [hi]

theorem swap_lt (x : Nat) : SWAP_UINT32 x < 2 ^ 32 := by
  unfold SWAP_UINT32
  exact Nat.mod_lt _ (by norm_num)

/-- The four bytes of `SWAP_UINT32 x`, lowest first, for a 32-bit `x`. -/
theorem swap_bytes (x : Nat) (hx : x < 2 ^ 32) :
    SWAP_UINT32 x % 256 = x / 2 ^ 24 % 256 ∧
    SWAP_UINT32 x / 2 ^ 8 % 256 = x / 2 ^ 16 % 256 ∧
    SWAP_UINT32 x / 2 ^ 16 % 256 = x / 2 ^ 8 % 256 ∧
    SWAP_UINT32 x / 2 ^ 24 % 256 = x % 256 := by
  have hm : x % 2 ^ 32 = x := Nat.mod_eq_of_lt hx
  have h0 := swap_byte x 0 (by omega)
  have h1 := swap_byte x 1 (by omega)
  have h2 := swap_byte x 2 (by omega)
  have h3 := swap_byte x 3 (by omega)
  rw [hm] at h0 h1 h2 h3
  simp only [Nat.shiftRight_eq_div_pow] at h0 h1 h2 h3
  norm_num at h0 h1 h2 h3
  norm_num
  exact ⟨h0, h1, h2, h3⟩

/-- A 32-bit word is determined by its four bytes. -/
theorem word_eq_of_bytes (x y : Nat) (hx : x < 2 ^ 32) (hy : y < 2 ^ 32)
    (h0 : x % 256 = y % 256) (h1 : x / 256 % 256 = y / 256 % 256)
    (h2 : x / 65536 % 256 = y / 65536 % 256) (h3 : x / 16777216 % 256 = y / 16777216 % 256) :
    x = y := by
  have ex2 : x / 65536 = x / 256 / 256 := by rw [Nat.div_div_eq_div_mul]
  have ex3 : x / 16777216 = x / 256 / 256 / 256 := by
    rw [Nat.div_div_eq_div_mul, Nat.div_div_eq_div_mul]
  have ey2 : y / 65536 = y / 256 / 256 := by rw [Nat.div_div_eq_div_mul]
  have ey3 : y / 16777216 = y / 256 / 256 / 256 := by
    rw [Nat.div_div_eq_div_mul, Nat.div_div_eq_div_mul]
  rw [ex2, ey2] at h2
  rw [ex3, ey3] at h3
  omega

theorem swap_image (e : ByteOrder) (x : Nat) (hx : x < 2 ^ 32) :
    wordImage e (SWAP_UINT32 x) = (wordImage e x).reverse := by
  obtain ⟨h0, h1, h2, h3⟩ := swap_bytes x hx
  simp only [Nat.reducePow] at h0 h1 h2 h3
  cases e <;> simp [wordImage, h0, h1, h2, h3]

theorem swap_swap (x : Nat) (hx : x < 2 ^ 32) : SWAP_UINT32 (SWAP_UINT32 x) = x := by
  obtain ⟨h0, h1, h2, h3⟩ := swap_bytes x hx
  obtain ⟨g0, g1, g2, g3⟩ := swap_bytes (SWAP_UINT32 x) (swap_lt x)
  have hl := swap_lt (SWAP_UINT32 x)
  rw [h3] at g0
  rw [h2] at g1
  rw [h1] at g2
  rw [h0] at g3
  simp only [Nat.reducePow] at *
  exact word_eq_of_bytes _ _ hl hx g0 g1 g2 g3

/-- The byte `uuid_bytes[k]` that `board_get_uuid` stores. -/
theorem uuid_read8 (e : ByteOrder) (hw : Reg → Nat) (mem : Buffer) (p k : Nat) (hk : k < 8) :
    (board_get_uuid e hw mem p).read8 (p + k) =
      (unionBytes e (board_get_uuid32 hw)).getD (CPU_UUID_BYTE_FORMAT_ORDER.getD k 0) 0 := by
  unfold Buffer.read8
  rw [board_get_uuid_apply, if_pos (by omega)]
  have e1 : p + k - p = k := by omega
  rw [e1]
  interval_cases k <;> cases e <;>
    simp [unionBytes, board_get_uuid32, wordImage, CPU_UUID_BYTE_FORMAT_ORDER]

theorem uuid_bytes_little (hw : Reg → Nat) (mem : Buffer) (p : Nat) :
    Buffer.bytes (board_get_uuid ByteOrder.little hw mem p) p 8 =
      bigEndian32 (getreg32 hw Reg.IMXRT_OCOTP_CFG1) ++
        bigEndian32 (getreg32 hw Reg.IMXRT_OCOTP_CFG0) := by
  simp only [Buffer.bytes, List.range, List.range.loop, List.map]
  rw [uuid_read8 _ _ _ _ 0 (by omega), uuid_read8 _ _ _ _ 1 (by omega),
    uuid_read8 _ _ _ _ 2 (by omega), uuid_read8 _ _ _ _ 3 (by omega),
    uuid_read8 _ _ _ _ 4 (by omega), uuid_read8 _ _ _ _ 5 (by omega),
    uuid_read8 _ _ _ _ 6 (by omega), uuid_read8 _ _ _ _ 7 (by omega)]
  simp [unionBytes, board_get_uuid32, wordImage, CPU_UUID_BYTE_FORMAT_ORDER, bigEndian32]

theorem uuid_bytes_big (hw : Reg → Nat) (mem : Buffer) (p : Nat) :
    Buffer.bytes (board_get_uuid ByteOrder.big hw mem p) p 8 =
      littleEndian32 (getreg32 hw Reg.IMXRT_OCOTP_CFG1) ++
        littleEndian32 (getreg32 hw Reg.IMXRT_OCOTP_CFG0) := by
  simp only [Buffer.bytes, List.range, List.range.loop, List.map]
  rw [uuid_read8 _ _ _ _ 0 (by omega), uuid_read8 _ _ _ _ 1 (by omega),
    uuid_read8 _ _ _ _ 2 (by omega), uuid_read8 _ _ _ _ 3 (by omega),
    uuid_read8 _ _ _ _ 4 (by omega), uuid_read8 _ _ _ _ 5 (by omega),
    uuid_read8 _ _ _ _ 6 (by omega), uuid_read8 _ _ _ _ 7 (by omega)]
  simp [unionBytes, board_get_uuid32, wordImage, CPU_UUID_BYTE_FORMAT_ORDER, littleEndian32]

theorem bigEndianValue_words (w0 w1 : Nat) (h0 : w0 < 2 ^ 32) (h1 : w1 < 2 ^ 32) :
    bigEndianValue (bigEndian32 w0 ++ bigEndian32 w1) = w0 * 2 ^ 32 + w1 := by
  simp only [bigEndianValue, bigEndian32, List.cons_append, List.nil_append, List.foldl,
    Nat.reducePow] at *
  omega

theorem getreg32_lt (hw : Reg → Nat) (r : Reg) : getreg32 hw r < 2 ^ 32 := by
  unfold getreg32
  exact Nat.mod_lt _ (by norm_num)

/-- The registers are determined by the bytes `board_get_uuid` stores. -/
theorem uuid_read8_inj (e : ByteOrder) (hw hw2 : Reg → Nat) (mem mem2 : Buffer) (p p2 : Nat)
    (h : ∀ k, k < 8 → (board_get_uuid e hw mem p).read8 (p + k) =
      (board_get_uuid e hw2 mem2 p2).read8 (p2 + k)) :
    getreg32 hw Reg.IMXRT_OCOTP_CFG1 = getreg32 hw2 Reg.IMXRT_OCOTP_CFG1 ∧
    getreg32 hw Reg.IMXRT_OCOTP_CFG0 = getreg32 hw2 Reg.IMXRT_OCOTP_CFG0 := by
  have a1 := getreg32_lt hw Reg.IMXRT_OCOTP_CFG1
  have a0 := getreg32_lt hw Reg.IMXRT_OCOTP_CFG0
  have b1 := getreg32_lt hw2 Reg.IMXRT_OCOTP_CFG1
  have b0 := getreg32_lt hw2 Reg.IMXRT_OCOTP_CFG0
  have h0 := h 0 (by omega)
  have h1 := h 1 (by omega)
  have h2 := h 2 (by omega)
  have h3 := h 3 (by omega)
  have h4 := h 4 (by omega)
  have h5 := h 5 (by omega)
  have h6 := h 6 (by omega)
  have h7 := h 7 (by omega)
  rw [uuid_read8 _ _ _ _ _ (by omega), uuid_read8 _ _ _ _ _ (by omega)] at h0 h1 h2 h3 h4 h5 h6 h7
  cases e <;>
    simp [unionBytes, board_get_uuid32, wordImage, CPU_UUID_BYTE_FORMAT_ORDER]
      at h0 h1 h2 h3 h4 h5 h6 h7 <;>
    simp only [Nat.reducePow] at * <;>
    exact ⟨word_eq_of_bytes _ _ a1 b1 (by assumption) (by assumption) (by assumption)
      (by assumption), word_eq_of_bytes _ _ a0 b0 (by assumption) (by assumption)
      (by assumption) (by assumption)⟩

/-! ## Properties of the byte layout -/

theorem hexChar_inj (a b : Nat) (ha : a < 16) (hb : b < 16) (h : hexChar a = hexChar b) :
    a = b := by
  unfold hexChar at h
  split at h <;> split at h <;> omega

/-- The UUID bytes inside the vendor GUID. -/
theorem px4_guid_read8_uuid (e : ByteOrder) (hw : Reg → Nat) (arch : Nat) (mem : Buffer)
    (k : Nat) (hk : k < 8) :
    (board_get_px4_guid e hw arch mem).1.read8 (10 + k) =
      (unionBytes e (board_get_uuid32 hw)).getD (CPU_UUID_BYTE_FORMAT_ORDER.getD k 0) 0 := by
  rw [← uuid_read8 e hw Buffer.fresh 0 k hk]
  unfold Buffer.read8
  rw [board_get_px4_guid_apply, if_neg (by omega), if_neg (by omega), if_neg (by omega),
    if_pos (by omega)]
  have e1 : 10 + k - 10 = 0 + k := by omega
  rw [e1]

/-- C14 at a big-endian layout of the union, registers of `exampleOcotp`:
the bytes `board_get_uuid` stores are `78 56 34 12 f0 de bc 9a`, the
little-endian encodings of the two words, not the big-endian ones. -/
theorem C14_big_endian_layout_counterexample :
    Buffer.bytes (board_get_uuid ByteOrder.big exampleOcotp Buffer.fresh 0) 0 8 =
      [0x78, 0x56, 0x34, 0x12, 0xf0, 0xde, 0xbc, 0x9a] ∧
    Buffer.bytes (board_get_uuid ByteOrder.big exampleOcotp Buffer.fresh 0) 0 8 ≠
      bigEndian32 (getreg32 exampleOcotp Reg.IMXRT_OCOTP_CFG1) ++
        bigEndian32 (getreg32 exampleOcotp Reg.IMXRT_OCOTP_CFG0) := by
  decide

/-- C14 (amended): for every content of the registers `W0` (CFG1) and `W1`
(CFG0), when the host lays the two words out little-endian (the byte order
of the i.MX RT), the 8 bytes `board_get_uuid` stores are the big-endian
encoding of `W0` followed by that of `W1`, and read as one 64-bit
big-endian number they are `W0 * 2^32 + W1`; with a big-endian layout the
same table gives the little-endian encodings of `W0` and `W1`. -/
theorem C14_board_get_uuid_big_endian_bytes (hw : Reg → Nat) (mem : Buffer) (p : Nat) :
    Buffer.bytes (board_get_uuid ByteOrder.little hw mem p) p 8 =
      bigEndian32 (getreg32 hw Reg.IMXRT_OCOTP_CFG1) ++
        bigEndian32 (getreg32 hw Reg.IMXRT_OCOTP_CFG0) ∧
    bigEndianValue (Buffer.bytes (board_get_uuid ByteOrder.little hw mem p) p 8) =
      getreg32 hw Reg.IMXRT_OCOTP_CFG1 * 2 ^ 32 + getreg32 hw Reg.IMXRT_OCOTP_CFG0 ∧
    Buffer.bytes (board_get_uuid ByteOrder.big hw mem p) p 8 =
      littleEndian32 (getreg32 hw Reg.IMXRT_OCOTP_CFG1) ++
        littleEndian32 (getreg32 hw Reg.IMXRT_OCOTP_CFG0) := by
  refine ⟨uuid_bytes_little hw mem p, ?_, uuid_bytes_big hw mem p⟩
  rw [uuid_bytes_little]
  exact bigEndianValue_words _ _ (getreg32_lt _ _) (getreg32_lt _ _)

/-- C15: for every content of the registers and every `int` size other than
`INT_MIN`, `board_get_px4_guid_formated` returns 0 with nothing at all
stored in the buffer if and only if `size ≤ 2` or `size ≥ 39`; for those
sizes the result is the untouched buffer and no `snprintf` call, whatever
the buffer held; and for `size ≥ 39` the start index `18 - size / 2` is
negative and becomes an unsigned value of at least `2^32 - 2^30`, although
the size leaves room for all 36 characters and the NUL. -/
theorem C15_px4_guid_formated_nothing_stored_iff (e : ByteOrder) (hw : Reg → Nat) (arch : Nat)
    (size : Int) (hmin : -2 ^ 31 < size) (hmax : size < 2 ^ 31) :
    ((∃ st, board_get_px4_guid_formated e hw arch Buffer.fresh size = some st ∧
        st.offset = 0 ∧ ∀ j, st.format_buffer j = none) ↔ (size ≤ 2 ∨ 39 ≤ size)) ∧
    (size ≤ 2 ∨ 39 ≤ size → ∀ format_buffer : Buffer,
      board_get_px4_guid_formated e hw arch format_buffer size =
        some { format_buffer := format_buffer, offset := 0, bounds := [] }) ∧
    (39 ≤ size →
      (PX4_GUID_BYTE_LENGTH : Int) - Int.tdiv (if size % 2 ≠ 0 then size else size - 1) 2 < 0 ∧
      2 ^ 32 - 2 ^ 30 ≤ toUnsigned
        ((PX4_GUID_BYTE_LENGTH : Int) - Int.tdiv (if size % 2 ≠ 0 then size else size - 1) 2) ∧
      36 + 1 ≤ size) := by
  refine ⟨⟨?_, ?_⟩, ?_, ?_⟩
  · rintro ⟨st, hst, ho, _⟩
    by_contra hr
    obtain ⟨st2, hst2, ho2, _, _, _⟩ :=
      px4_guid_formated_spec e hw arch Buffer.fresh size (by omega) (by omega)
    have hk1 : 1 ≤ keptBytes size := by unfold keptBytes; split <;> omega
    rw [hst] at hst2
    have hEq : st = st2 := Option.some.inj hst2
    rw [hEq] at ho
    omega
  · intro hs
    exact ⟨_, px4_guid_formated_out_of_range e hw arch Buffer.fresh size hmin hmax hs, rfl,
      fun _ => rfl⟩
  · intro hs format_buffer
    exact px4_guid_formated_out_of_range e hw arch format_buffer size hmin hmax hs
  · intro h39
    have hpos : 0 ≤ (if size % 2 ≠ 0 then size else size - 1) := by split <;> omega
    rw [Int.tdiv_eq_ediv hpos (by omega)]
    simp only [toUnsigned, PX4_GUID_BYTE_LENGTH]
    split <;> omega

/-- Witness of C15 at `size = 40`. -/
theorem C15_px4_guid_formated_nothing_stored_iff_witness :
    ∃ st, board_get_px4_guid_formated ByteOrder.little exampleOcotp 0x0102 Buffer.fresh 40
        = some st ∧ st.offset = 0 ∧ ∀ j, st.format_buffer j = none :=
  (C15_px4_guid_formated_nothing_stored_iff ByteOrder.little exampleOcotp 0x0102 40
    (by decide) (by decide)).1.mpr (Or.inr (by decide))

/-- C16 at the registers of `exampleOcotp` (little-endian host): the die
X-coordinate byte `0x12` and the Y-coordinate byte `0x34` of CFG1 are GUID
bytes 10 and 11, below the CFG0 bytes at 14..17, and the tail bytes 16 and
17 are `0xde` and `0xf0`, bytes of CFG0: neither is a coordinate byte. -/
theorem C16_tail_is_not_wafer_coordinates :
    exampleOcotp Reg.IMXRT_OCOTP_CFG1 / 2 ^ 24 % 256 = 0x12 ∧
    exampleOcotp Reg.IMXRT_OCOTP_CFG1 / 2 ^ 16 % 256 = 0x34 ∧
    Buffer.bytes (board_get_px4_guid ByteOrder.little exampleOcotp 0x0102 Buffer.fresh).1 0 18 =
      [0x01, 0x02, 0, 0, 0, 0, 0, 0, 0, 0, 0x12, 0x34, 0x56, 0x78, 0x9a, 0xbc, 0xde, 0xf0] ∧
    (board_get_px4_guid ByteOrder.little exampleOcotp 0x0102 Buffer.fresh).1.read8 16 ≠ 0x12 ∧
    (board_get_px4_guid ByteOrder.little exampleOcotp 0x0102 Buffer.fresh).1.read8 16 ≠ 0x34 ∧
    (board_get_px4_guid ByteOrder.little exampleOcotp 0x0102 Buffer.fresh).1.read8 17 ≠ 0x12 ∧
    (board_get_px4_guid ByteOrder.little exampleOcotp 0x0102 Buffer.fresh).1.read8 17 ≠ 0x34 ∧
    (board_get_px4_guid_formated ByteOrder.little exampleOcotp 0x0102 Buffer.fresh 5).map
      (fun st => st.format_buffer.cstr 5 0) = some [100, 101, 102, 48] := by
  decide

/-- C16 (amended): in the vendor GUID built by `board_get_px4_guid` on the
little-endian host, the die X-coordinate byte (bits 31:24 of CFG1) is byte
10 and the die Y-coordinate byte (bits 23:16 of CFG1) is byte 11, at lower
byte indices than every byte of CFG0 (bytes 14..17, most significant
first); the tail kept by `board_get_px4_guid_formated` with `size = 5`,
bytes 16 and 17, is the hex of bits 15:8 and 7:0 of CFG0. -/
theorem C16_px4_guid_coordinate_bytes (hw : Reg → Nat) (arch : Nat) (mem format_buffer : Buffer) :
    (board_get_px4_guid ByteOrder.little hw arch mem).1.read8 10 =
      getreg32 hw Reg.IMXRT_OCOTP_CFG1 / 2 ^ 24 % 256 ∧
    (board_get_px4_guid ByteOrder.little hw arch mem).1.read8 11 =
      getreg32 hw Reg.IMXRT_OCOTP_CFG1 / 2 ^ 16 % 256 ∧
    (board_get_px4_guid ByteOrder.little hw arch mem).1.read8 14 =
      getreg32 hw Reg.IMXRT_OCOTP_CFG0 / 2 ^ 24 % 256 ∧
    (board_get_px4_guid ByteOrder.little hw arch mem).1.read8 15 =
      getreg32 hw Reg.IMXRT_OCOTP_CFG0 / 2 ^ 16 % 256 ∧
    (board_get_px4_guid ByteOrder.little hw arch mem).1.read8 16 =
      getreg32 hw Reg.IMXRT_OCOTP_CFG0 / 2 ^ 8 % 256 ∧
    (board_get_px4_guid ByteOrder.little hw arch mem).1.read8 17 =
      getreg32 hw Reg.IMXRT_OCOTP_CFG0 % 256 ∧
    ∃ st, board_get_px4_guid_formated ByteOrder.little hw arch format_buffer 5 = some st ∧
      st.offset = 4 ∧
      st.format_buffer 0 = some (hexChar (getreg32 hw Reg.IMXRT_OCOTP_CFG0 / 2 ^ 8 % 256 / 16)) ∧
      st.format_buffer 1 = some (hexChar (getreg32 hw Reg.IMXRT_OCOTP_CFG0 / 2 ^ 8 % 256 % 16)) ∧
      st.format_buffer 2 = some (hexChar (getreg32 hw Reg.IMXRT_OCOTP_CFG0 % 256 / 16)) ∧
      st.format_buffer 3 = some (hexChar (getreg32 hw Reg.IMXRT_OCOTP_CFG0 % 256 % 16)) ∧
      st.format_buffer 4 = some 0 := by
  have r : ∀ (m : Buffer) (k : Nat), k < 8 →
      (board_get_px4_guid ByteOrder.little hw arch m).1.read8 (10 + k) =
        (unionBytes ByteOrder.little (board_get_uuid32 hw)).getD
          (CPU_UUID_BYTE_FORMAT_ORDER.getD k 0) 0 :=
    fun m k hk => px4_guid_read8_uuid ByteOrder.little hw arch m k hk
  have r0 := r mem 0 (by omega)
  have r1 := r mem 1 (by omega)
  have r4 := r mem 4 (by omega)
  have r5 := r mem 5 (by omega)
  have r6 := r mem 6 (by omega)
  have r7 := r mem 7 (by omega)
  have f6 := r Buffer.fresh 6 (by omega)
  have f7 := r Buffer.fresh 7 (by omega)
  simp [unionBytes, board_get_uuid32, wordImage, CPU_UUID_BYTE_FORMAT_ORDER]
    at r0 r1 r4 r5 r6 r7 f6 f7
  refine ⟨by simpa using r0, by simpa using r1, by simpa using r4, by simpa using r5,
    by simpa using r6, by simpa using r7, ?_⟩
  obtain ⟨st, hst, ho, hbuf, _, _⟩ :=
    px4_guid_formated_spec ByteOrder.little hw arch format_buffer 5 (by decide) (by decide)
  have hk : keptBytes 5 = 2 := by decide
  rw [hk] at ho hbuf
  refine ⟨st, hst, ho, ?_, ?_, ?_, ?_, ?_⟩
  · rw [hbuf 0, if_pos (by omega)]
    have := hexNibble_even (board_get_px4_guid ByteOrder.little hw arch Buffer.fresh).1 16 0
    simp only [Nat.mul_zero, Nat.add_zero] at this
    rw [show 18 - 2 = 16 from rfl, this, f6]
    norm_num
  · rw [hbuf 1, if_pos (by omega)]
    have := hexNibble_odd (board_get_px4_guid ByteOrder.little hw arch Buffer.fresh).1 16 0
    simp only [Nat.mul_zero, Nat.add_zero, Nat.zero_add] at this
    rw [show 18 - 2 = 16 from rfl, this, f6]
    norm_num
  · rw [hbuf 2, if_pos (by omega)]
    have := hexNibble_even (board_get_px4_guid ByteOrder.little hw arch Buffer.fresh).1 16 1
    simp only [Nat.mul_one] at this
    rw [show 18 - 2 = 16 from rfl, this, f7]
  · rw [hbuf 3, if_pos (by omega)]
    have := hexNibble_odd (board_get_px4_guid ByteOrder.little hw arch Buffer.fresh).1 16 1
    simp only [Nat.mul_one] at this
    rw [show 18 - 2 = 16 from rfl, this, f7]
  · rw [hbuf 4, if_neg (by omega), if_pos (by omega)]

/-- C17: the reorder table `{3, 2, 1, 0, 7, 6, 5, 4}` is a permutation of
`0..7`, and `board_get_uuid` is injective in the registers: when it yields
the same 8 bytes for two register contents, both `W0` (CFG1) and `W1`
(CFG0) agree.  So are `board_get_px4_guid` (equal 18 bytes, whatever the
architecture IDs) and, for a size of at least 17, the 16 characters of
`board_get_mfguid_formated`: outputs differ whenever the registers do. -/
theorem C17_board_get_uuid_injective (e : ByteOrder) (hw hw2 : Reg → Nat) :
    CPU_UUID_BYTE_FORMAT_ORDER.Perm (List.range 8) ∧
    (∀ (mem mem2 : Buffer) (p p2 : Nat),
      (∀ i, i < 8 → board_get_uuid e hw mem p (p + i) = board_get_uuid e hw2 mem2 p2 (p2 + i)) →
      getreg32 hw Reg.IMXRT_OCOTP_CFG1 = getreg32 hw2 Reg.IMXRT_OCOTP_CFG1 ∧
      getreg32 hw Reg.IMXRT_OCOTP_CFG0 = getreg32 hw2 Reg.IMXRT_OCOTP_CFG0) ∧
    (∀ (A A2 : Nat) (mem mem2 : Buffer),
      (∀ i, i < 18 →
        (board_get_px4_guid e hw A mem).1 i = (board_get_px4_guid e hw2 A2 mem2).1 i) →
      getreg32 hw Reg.IMXRT_OCOTP_CFG1 = getreg32 hw2 Reg.IMXRT_OCOTP_CFG1 ∧
      getreg32 hw Reg.IMXRT_OCOTP_CFG0 = getreg32 hw2 Reg.IMXRT_OCOTP_CFG0) ∧
    (∀ (size size2 : Int) (buf buf2 : Buffer), 17 ≤ size → size < 2 ^ 31 → 17 ≤ size2 →
      size2 < 2 ^ 31 →
      (∀ j, j < 16 → (board_get_mfguid_formated e hw buf size).format_buffer j =
        (board_get_mfguid_formated e hw2 buf2 size2).format_buffer j) →
      getreg32 hw Reg.IMXRT_OCOTP_CFG1 = getreg32 hw2 Reg.IMXRT_OCOTP_CFG1 ∧
      getreg32 hw Reg.IMXRT_OCOTP_CFG0 = getreg32 hw2 Reg.IMXRT_OCOTP_CFG0) := by
  refine ⟨by decide, ?_, ?_, ?_⟩
  · intro mem mem2 p p2 h
    apply uuid_read8_inj e hw hw2 mem mem2 p p2
    intro k hk
    unfold Buffer.read8
    rw [h k hk]
  · intro A A2 mem mem2 h
    apply uuid_read8_inj e hw hw2 Buffer.fresh Buffer.fresh 0 0
    intro k hk
    rw [uuid_read8 _ _ _ _ _ hk, uuid_read8 _ _ _ _ _ hk, ← px4_guid_read8_uuid e hw A mem k hk,
      ← px4_guid_read8_uuid e hw2 A2 mem2 k hk]
    unfold Buffer.read8
    rw [h (10 + k) (by omega)]
  · intro size size2 buf buf2 h17 hmax h17b hmaxb h
    obtain ⟨_, hb⟩ := mfguid_formated_spec e hw buf size h17 hmax
    obtain ⟨_, hb2⟩ := mfguid_formated_spec e hw2 buf2 size2 h17b hmaxb
    apply uuid_read8_inj e hw hw2 Buffer.fresh Buffer.fresh 0 0
    intro k hk
    have he := h (2 * k) (by omega)
    have ho := h (2 * k + 1) (by omega)
    rw [hb, hb2, if_pos (by omega), if_pos (by omega), hexNibble_even] at he
    rw [hb, hb2, if_pos (by omega), if_pos (by omega), hexNibble_odd] at ho
    rw [hexNibble_even] at he
    rw [hexNibble_odd] at ho
    have l1 := read8_lt (board_get_mfguid e hw Buffer.fresh).1 (0 + k)
    have l2 := read8_lt (board_get_mfguid e hw2 Buffer.fresh).1 (0 + k)
    have q := hexChar_inj _ _ (by omega) (by omega) (Option.some.inj he)
    have r := hexChar_inj _ _ (by omega) (by omega) (Option.some.inj ho)
    show (board_get_mfguid e hw Buffer.fresh).1.read8 (0 + k) =
      (board_get_mfguid e hw2 Buffer.fresh).1.read8 (0 + k)
    omega

/-- C18: on a 32-bit value `x`, `SWAP_UINT32` gives a 32-bit value whose
four bytes are those of `x` in reverse order, and applying it twice gives
`x` back; the reorder loop of `board_get_uuid` amounts to it: the 8 bytes
stored are the memory image of the word array
`[SWAP_UINT32 W0, SWAP_UINT32 W1]`, and nothing else is stored. -/
theorem C18_swap_uint32_reverses_bytes (x : Nat) (hx : x < 2 ^ 32) (e : ByteOrder)
    (hw : Reg → Nat) (mem : Buffer) (p : Nat) :
    SWAP_UINT32 x < 2 ^ 32 ∧
    bigEndian32 (SWAP_UINT32 x) = (bigEndian32 x).reverse ∧
    wordImage e (SWAP_UINT32 x) = (wordImage e x).reverse ∧
    SWAP_UINT32 (SWAP_UINT32 x) = x ∧
    (∀ i, i < 8 → board_get_uuid e hw mem p (p + i) =
      some ((unionBytes e [SWAP_UINT32 (getreg32 hw Reg.IMXRT_OCOTP_CFG1),
        SWAP_UINT32 (getreg32 hw Reg.IMXRT_OCOTP_CFG0)]).getD i 0)) ∧
    (∀ j, j < p ∨ p + 8 ≤ j → board_get_uuid e hw mem p j = mem j) := by
  refine ⟨swap_lt x, swap_image ByteOrder.big x hx, swap_image e x hx, swap_swap x hx, ?_, ?_⟩
  · intro i hi
    rw [board_get_uuid_apply, if_pos (by omega)]
    have e1 : p + i - p = i := by omega
    have i1 := swap_image e _ (getreg32_lt hw Reg.IMXRT_OCOTP_CFG1)
    have i0 := swap_image e _ (getreg32_lt hw Reg.IMXRT_OCOTP_CFG0)
    rw [e1]
    simp only [unionBytes, List.flatMap_cons, List.flatMap_nil, List.append_nil, i1, i0,
      board_get_uuid32]
    interval_cases i <;> cases e <;> simp [wordImage, CPU_UUID_BYTE_FORMAT_ORDER]
  · intro j hj
    rw [board_get_uuid_apply, if_neg (by omega)]

/-- Witness of C18 at `x = 0x12345678`. -/
theorem C18_swap_uint32_reverses_bytes_witness :
    SWAP_UINT32 0x12345678 < 2 ^ 32 ∧
    bigEndian32 (SWAP_UINT32 0x12345678) = (bigEndian32 0x12345678).reverse ∧
    SWAP_UINT32 (SWAP_UINT32 0x12345678) = 0x12345678 :=
  have h := C18_swap_uint32_reverses_bytes 0x12345678 (by decide) ByteOrder.little exampleOcotp
    Buffer.fresh 0
  ⟨h.1, h.2.1, h.2.2.2.1⟩

end BoardIdentity
